import Mathlib

/-!
Verification of the scheduling core of the llm-observatory repository
(`dagster_definitions/sensors.py`): the cron-expression matcher
`cron_matches`, the schedule resolver `get_effective_cron`, and the
dedup-ledger evaluation cycle `swarm_schedule_sensor`.

The Python source is shallowly embedded: pure functions become Lean
functions, exceptions become `Except String`, Python dicts become
insertion-ordered association lists, and the two external API calls
(list swarms, trigger swarm) are modelled by an explicit `ApiBehavior`
record.  String primitives (`split`, slicing, lexicographic comparison)
are modelled over `String.data` so every definition reduces in the
kernel.
-/

set_option maxRecDepth 4096

/-! ## Python string primitives -/

/-- Lexicographic comparison of character lists by code point, shorter
prefix first; this is the semantics of Python `str` comparison for the
strings handled here. -/
def listLtB : List Char → List Char → Bool
  | [], [] => false
  | [], _ :: _ => true
  | _ :: _, [] => false
  | a :: as, b :: bs =>
    if a.toNat < b.toNat then true
    else if b.toNat < a.toNat then false
    else listLtB as bs

/-- Python `a < b` on strings. -/
def strLt (a b : String) : Bool := listLtB a.data b.data

/-- Boolean prefix test on character lists. -/
def isPrefixB : List Char → List Char → Bool
  | [], _ => true
  | _ :: _, [] => false
  | a :: as, b :: bs => a == b && isPrefixB as bs

/-- Python `s.startswith(pre)`. -/
def pyStartsWith (s pre : String) : Bool := isPrefixB pre.data s.data

/-- Python `s[:n]` (code-point slicing). -/
def strTake (s : String) (n : Nat) : String := String.mk (s.data.take n)

/-- Helper for `splitChar`: accumulates the current token (reversed). -/
def splitCharAux (c : Char) : List Char → List Char → List String
  | [], cur => [String.mk cur.reverse]
  | x :: xs, cur =>
    if x = c then String.mk cur.reverse :: splitCharAux c xs []
    else splitCharAux c xs (x :: cur)

/-- Python `s.split(c)` for a one-character separator: splits at every
occurrence and keeps empty pieces. -/
def splitChar (c : Char) (s : String) : List String := splitCharAux c s.data []

/-- The whitespace characters recognised by Python `str.split()` (ASCII
subset; the cron strings handled here contain no exotic whitespace). -/
def isPyWs (c : Char) : Bool :=
  c = ' ' || c = '\t' || c = '\n' || c = '\r' || c = '\x0b' || c = '\x0c'

/-- Helper for `pySplitWs`. -/
def pySplitWsAux : List Char → List Char → List String
  | [], cur => [String.mk cur.reverse]
  | x :: xs, cur =>
    if isPyWs x then String.mk cur.reverse :: pySplitWsAux xs []
    else pySplitWsAux xs (x :: cur)

/-- Python `s.split()` with no separator: split on whitespace runs and
drop empty tokens.  `s.strip().split()` in the source is extensionally
the same function, since leading/trailing whitespace only contributes
empty tokens which are dropped. -/
def pySplitWs (s : String) : List String :=
  (pySplitWsAux s.data []).filter (fun t => t ≠ "")

/-- Digit-string evaluation: `some n` iff the list is a nonempty run of
ASCII digits. -/
def digitsToNat (cs : List Char) : Option Nat :=
  if cs.isEmpty then none
  else cs.foldl
    (fun acc c => acc.bind (fun a =>
      if c.isDigit then some (a * 10 + (c.toNat - 48)) else none))
    (some 0)

/-- Python `int(s)` restricted to the inputs reachable from cron fields:
an optional sign followed by ASCII digits; anything else raises
(`none`).  (Python also strips whitespace and allows `_` separators and
unicode digits; such tokens cannot reach `int` here because fields are
produced by whitespace splitting, and the claims do not depend on
them.) -/
def pyInt (s : String) : Option Int :=
  match s.data with
  | '+' :: cs => (digitsToNat cs).map (fun n => (n : Int))
  | '-' :: cs => (digitsToNat cs).map (fun n => -(n : Int))
  | cs => (digitsToNat cs).map (fun n => (n : Int))

/-! ## Datetime model

`datetime` values are modelled at minute granularity: no code path of
the sensor reads seconds or finer.  The weekday is computed from the
proleptic Gregorian calendar exactly as CPython's `date.toordinal` /
`date.weekday` do. -/

structure PyDateTime where
  year : Nat
  month : Nat
  day : Nat
  hour : Nat
  minute : Nat
  deriving DecidableEq

def isLeap (y : Nat) : Bool :=
  y % 4 = 0 && (y % 100 ≠ 0 || y % 400 = 0)

def daysInMonth (y m : Nat) : Nat :=
  if m = 2 then (if isLeap y then 29 else 28)
  else if m = 4 ∨ m = 6 ∨ m = 9 ∨ m = 11 then 30
  else 31

/-- Days in months `1 .. m-1` of year `y`. -/
def daysBeforeMonth (y : Nat) : Nat → Nat
  | 0 => 0
  | 1 => 0
  | m + 1 => daysBeforeMonth y m + daysInMonth y m

/-- CPython `date.toordinal`: day number with `0001-01-01 = 1`. -/
def toordinal (dt : PyDateTime) : Nat :=
  let y1 := dt.year - 1
  365 * y1 + y1 / 4 - y1 / 100 + y1 / 400
    + daysBeforeMonth dt.year dt.month + dt.day

/-- CPython `date.weekday`: 0 = Monday .. 6 = Sunday. -/
def pyWeekday (dt : PyDateTime) : Nat := (toordinal dt + 6) % 7

/-- Line 40 of sensors.py: `cron_weekday = (dt.weekday() + 1) % 7`,
converting to the cron convention 0 = Sunday .. 6 = Saturday. -/
def cron_weekday (dt : PyDateTime) : Nat := (pyWeekday dt + 1) % 7

/-! ## Cron matcher (`matches_field`, `cron_matches`) -/

/-- Lines 22-36 of sensors.py.  The Python function returns a `bool` or
raises (`ValueError` from `int`, unpacking errors, `ZeroDivisionError`
from `%`); raising is modelled as `Except.error`.  `value % sv == 0`
uses `Int.emod`, which agrees with the Python `%` on the tested
equality-to-zero for every sign of `sv`. -/
def matches_field (field : String) (value : Int) : Except String Bool :=
  if field = "*" then Except.ok true
  else if field.data.contains '/' then
    match splitChar '/' field with
    | [base, step] =>
      match pyInt step with
      | none => Except.error "ValueError: invalid literal for int"
      | some sv =>
        if base = "*" then
          if sv = 0 then Except.error "ZeroDivisionError"
          else Except.ok (value % sv == 0)
        else Except.ok false
    | _ => Except.error "ValueError: unpacking"
  else if field.data.contains '-' then
    match splitChar '-' field with
    | [a, b] =>
      match pyInt a with
      | none => Except.error "ValueError: invalid literal for int"
      | some x =>
        match pyInt b with
        | none => Except.error "ValueError: invalid literal for int"
        | some y => Except.ok (decide (x ≤ value) && decide (value ≤ y))
    | _ => Except.error "ValueError: unpacking"
  else if field.data.contains ',' then
    match (splitChar ',' field).mapM pyInt with
    | none => Except.error "ValueError: invalid literal for int"
    | some xs => Except.ok (xs.contains value)
  else
    match pyInt field with
    | none => Except.error "ValueError: invalid literal for int"
    | some n => Except.ok (value == n)

/-- Lines 11-48 of sensors.py.  Field count different from 5 returns
`false`; the five field checks are combined with Python `and`, which
short-circuits, so a later field is not evaluated (and cannot raise)
when an earlier one fails. -/
def cron_matches (cron_expression : String) (dt : PyDateTime) : Except String Bool :=
  match pySplitWs cron_expression with
  | [minute, hour, day, month, weekday] =>
    match matches_field minute (dt.minute : Int) with
    | Except.error e => Except.error e
    | Except.ok false => Except.ok false
    | Except.ok true =>
      match matches_field hour (dt.hour : Int) with
      | Except.error e => Except.error e
      | Except.ok false => Except.ok false
      | Except.ok true =>
        match matches_field day (dt.day : Int) with
        | Except.error e => Except.error e
        | Except.ok false => Except.ok false
        | Except.ok true =>
          match matches_field month (dt.month : Int) with
          | Except.error e => Except.error e
          | Except.ok false => Except.ok false
          | Except.ok true => matches_field weekday (cron_weekday dt : Int)
  | _ => Except.ok false

/-! ## Swarm records and the schedule resolver -/

/-- A swarm record as consumed by the sensor (`swarm.get(...)` fields).
`none` models both a missing key and an explicit JSON `null`. -/
structure Swarm where
  id : Option String
  display_name : Option String
  is_paused : Option Bool
  schedule_type : Option String
  cron_expression : Option String
  deriving DecidableEq

/-- Python truthiness of an optional string (`if x:`): false for `None`
and for the empty string. -/
def truthyS : Option String → Bool
  | none => false
  | some s => s ≠ ""

/-- The `defaults` table of lines 62-66, accessed with `.get` (unknown
keys give `None`). -/
def scheduleDefaults (schedule_type : String) : Option String :=
  if schedule_type = "daily" then some "0 9 * * *"
  else if schedule_type = "weekly" then some "0 9 * * 1"
  else if schedule_type = "monthly" then some "0 9 1 * *"
  else none

/-- Lines 51-67 of sensors.py: `if not schedule_type: return None`,
`if cron_expr: return cron_expr`, otherwise the defaults table. -/
def get_effective_cron (swarm : Swarm) : Option String :=
  match swarm.schedule_type with
  | none => none
  | some st =>
    if st = "" then none
    else
      match swarm.cron_expression with
      | some ce => if ce = "" then scheduleDefaults st else some ce
      | none => scheduleDefaults st

/-! ## The cursor dictionary

The cursor is a Python dict `str -> bool`, modelled as an
insertion-ordered association list, matching dict iteration order.
Self-produced cursors never contain duplicate keys; `json_loads` below
deduplicates exactly as `dict` construction does (last value wins,
first position kept). -/

abbrev Dict := List (String × Bool)

/-- Python `k in d`. -/
def dcontains (d : Dict) (k : String) : Bool :=
  d.any (fun kv => kv.1 == k)

/-- Python `d[k]` as an option. -/
def dget (d : Dict) (k : String) : Option Bool :=
  (d.find? (fun kv => kv.1 == k)).map (fun kv => kv.2)

/-- Python `d[k] = v`: update in place if the key exists (keeping its
position), otherwise append. -/
def dinsert (d : Dict) (k : String) (v : Bool) : Dict :=
  if dcontains d k then
    d.map (fun kv => if kv.1 == k then (k, v) else kv)
  else d ++ [(k, v)]

/-- Key uniqueness invariant of Python dicts. -/
def NoDupKeys (d : Dict) : Prop := (d.map (fun kv => kv.1)).Nodup

/-! ## JSON (Python `json` module, restricted)

The sensor round-trips the cursor with `json.loads` / `json.dumps`.
Only JSON objects whose values are `true`/`false` are modelled: that is
the exact language of self-produced cursors (`json.dumps` of a
`str -> bool` dict with default separators), and the claims never
depend on other JSON payloads.  String escaping covers `\"` and `\\`;
other texts are rejected as malformed. -/

/-- `json.dumps` escaping for one character (restricted to the quote
and backslash escapes). -/
def escChar (c : Char) : List Char :=
  if c = '"' ∨ c = '\\' then ['\\', c] else [c]

def dumpEntryChars (kv : String × Bool) : List Char :=
  '"' :: ((kv.1.data.map escChar).flatten ++ '"' :: ':' :: ' ' ::
    (if kv.2 then "true".data else "false".data))

def dumpMembersChars : Dict → List Char
  | [] => []
  | [kv] => dumpEntryChars kv
  | kv :: rest => dumpEntryChars kv ++ ',' :: ' ' :: dumpMembersChars rest

/-- `json.dumps` with default separators: `{"k": true, "l": false}`. -/
def json_dumps (d : Dict) : String :=
  String.mk ('\x7b' :: (dumpMembersChars d ++ ['\x7d']))

/-- JSON whitespace (the exact four characters of RFC 8259, which is
what Python `json.loads` skips). -/
def isJsonWs (c : Char) : Bool :=
  c = ' ' || c = '\t' || c = '\n' || c = '\r'

def skipWs : List Char → List Char
  | [] => []
  | c :: r => if isJsonWs c then skipWs r else c :: r

/-- Parse the body of a JSON string after the opening quote; returns
the content characters and the remainder after the closing quote. -/
def parseStrChars : List Char → Option (List Char × List Char)
  | [] => none
  | c :: r =>
    if c = '"' then some ([], r)
    else if c = '\\' then
      match r with
      | [] => none
      | e :: r2 =>
        if e = '"' ∨ e = '\\' then
          (parseStrChars r2).map (fun p => (e :: p.1, p.2))
        else none
    else (parseStrChars r).map (fun p => (c :: p.1, p.2))

def parseBoolChars (l : List Char) : Option (Bool × List Char) :=
  if l.take 4 = "true".data then some (true, l.drop 4)
  else if l.take 5 = "false".data then some (false, l.drop 5)
  else none

/-- Parse the members of a JSON object (after the opening brace, at
least one member present), accumulating into a dict. -/
def parseMembers : Nat → Dict → List Char → Option (Dict × List Char)
  | 0, _, _ => none
  | fuel + 1, acc, l =>
    match skipWs l with
    | [] => none
    | c :: r =>
      if c = '"' then
        match parseStrChars r with
        | none => none
        | some (kChars, r1) =>
          match skipWs r1 with
          | [] => none
          | c2 :: r2 =>
            if c2 = ':' then
              match parseBoolChars (skipWs r2) with
              | none => none
              | some (v, r3) =>
                match skipWs r3 with
                | [] => none
                | c3 :: r4 =>
                  if c3 = ',' then parseMembers fuel (dinsert acc (String.mk kChars) v) r4
                  else if c3 = '\x7d' then some (dinsert acc (String.mk kChars) v, r4)
                  else none
            else none
      else none

/-- Python `json.loads` on the modelled fragment; `Except.error` models
a raised `json.JSONDecodeError`. -/
def json_loads (s : String) : Except String Dict :=
  match skipWs s.data with
  | [] => Except.error "JSONDecodeError"
  | c :: r =>
    if c = '\x7b' then
      match skipWs r with
      | [] => Except.error "JSONDecodeError"
      | c2 :: r2 =>
        if c2 = '\x7d' then
          (if skipWs r2 = [] then Except.ok []
           else Except.error "JSONDecodeError: extra data")
        else
          match parseMembers (s.data.length + 1) [] r with
          | some (d, rest) =>
            if skipWs rest = [] then Except.ok d
            else Except.error "JSONDecodeError: extra data"
          | none => Except.error "JSONDecodeError"
    else Except.error "JSONDecodeError"

/-! ## The evaluation cycle (`swarm_schedule_sensor`) -/

/-- Zero-padded two-digit component (`strftime` `%m`, `%d`, `%H`, `%M`). -/
def pad2 (n : Nat) : String :=
  if n < 10 then "0" ++ toString n else toString n

/-- Zero-padded four-digit year (`strftime` `%Y`). -/
def pad4 (n : Nat) : String :=
  if n < 10 then "000" ++ toString n
  else if n < 100 then "00" ++ toString n
  else if n < 1000 then "0" ++ toString n
  else toString n

/-- Line 89: `now.strftime("%Y-%m-%d-%H")`. -/
def fmtHour (dt : PyDateTime) : String :=
  pad4 dt.year ++ "-" ++ pad2 dt.month ++ "-" ++ pad2 dt.day ++ "-" ++ pad2 dt.hour

/-- Line 83: `now.strftime("%Y-%m-%d-%H-%M")`. -/
def fmtMinute (dt : PyDateTime) : String :=
  fmtHour dt ++ "-" ++ pad2 dt.minute

/-- Line 90: `{k: v for k, v in cursor.items() if k.startswith(cutoff)
or k > cutoff[:10]}`. -/
def pruneLedger (now : PyDateTime) (d : Dict) : Dict :=
  d.filter (fun kv => pyStartsWith kv.1 (fmtHour now) || strLt (strTake (fmtHour now) 10) kv.1)

/-- Line 86: `context.cursor or "{}"` (both a missing cursor and the
empty string are falsy). -/
def pyOrDefault : Option String → String
  | none => "\x7b\x7d"
  | some s => if s = "" then "\x7b\x7d" else s

/-- Python `f"...{x}..."` of an optional string: `None` renders as the
text `None`. -/
def pyStrOpt : Option String → String
  | none => "None"
  | some s => s

/-- The two external API calls, as seen by one evaluation cycle.
`run_swarm` is keyed by the stringification of the swarm id, which is
exactly what determines the request URL in `resources.py`. -/
structure ApiBehavior where
  get_swarms : Except String (List Swarm)
  run_swarm : String → Except String Unit

/-- The evaluation outcome of one cycle (spec section 6): `None` from
the Python sensor after at least one trigger is `triggered` with the
collected display names; a `SkipReason` is `skipped`. -/
inductive Outcome where
  | triggered (names : List String)
  | skipped (reason : String)
  deriving DecidableEq

/-- The mutable state of the per-swarm loop (lines 98-131): the cursor
dict, the `triggered` display-name list, and the ordered log of issued
`run_swarm` calls. -/
structure CycleState where
  cursor : Dict
  triggered : List String
  calls : List String
  deriving DecidableEq

/-- Line 117: `dedup_key = f"{current_minute}:{swarm_id}"`. -/
def dedupKeyFor (current_minute : String) (s : Swarm) : String :=
  current_minute ++ ":" ++ pyStrOpt s.id

/-- Line 124: `display_name = swarm.get("display_name") or swarm_id[:8]`;
`none` models the `TypeError` raised by slicing `None` (which the
enclosing `try` catches). -/
def displayNameOf (s : Swarm) : Option String :=
  match s.display_name with
  | some d => if d = "" then s.id.map (fun i => strTake i 8) else some d
  | none => s.id.map (fun i => strTake i 8)

/-- A swarm passes all the per-swarm guards up to the dedup check: not
paused, effective cron present and truthy, and the cron matches `now`. -/
def swarmEligible (now : PyDateTime) (s : Swarm) : Bool :=
  !(s.is_paused == some true) &&
    (match get_effective_cron s with
     | none => false
     | some ce => !(ce == "") &&
        (match cron_matches ce now with
         | Except.ok true => true
         | _ => false))

/-- Evaluating this swarm cannot raise: it is paused, or has no
effective cron, or its cron expression evaluates without an exception.
(The only uncaught exception inside the loop is from `cron_matches` at
line 113.) -/
def evalSwarmTotal (now : PyDateTime) (s : Swarm) : Bool :=
  (s.is_paused == some true) ||
    (match get_effective_cron s with
     | none => true
     | some ce => (ce == "") ||
        (match cron_matches ce now with
         | Except.ok _ => true
         | Except.error _ => false))

/-- Lines 100-131 of sensors.py: the body of `for swarm in swarms`.
The `try` at 123 catches both the display-name `TypeError` and a
`run_swarm` failure; a failed trigger logs and continues without
marking the ledger. -/
def evalSwarm (api : ApiBehavior) (current_minute : String) (now : PyDateTime)
    (st : CycleState) (s : Swarm) : Except String CycleState :=
  if s.is_paused == some true then Except.ok st
  else
    match get_effective_cron s with
    | none => Except.ok st
    | some ce =>
      if ce = "" then Except.ok st
      else
        match cron_matches ce now with
        | Except.error e => Except.error e
        | Except.ok m =>
          if m = false then Except.ok st
          else if dcontains st.cursor (dedupKeyFor current_minute s) then Except.ok st
          else
            match displayNameOf s with
            | none => Except.ok st
            | some dn =>
              match api.run_swarm (pyStrOpt s.id) with
              | Except.ok _ =>
                Except.ok ⟨dinsert st.cursor (dedupKeyFor current_minute s) true,
                  st.triggered ++ [dn], st.calls ++ [pyStrOpt s.id]⟩
              | Except.error _ =>
                Except.ok ⟨st.cursor, st.triggered, st.calls ++ [pyStrOpt s.id]⟩

/-- The whole per-swarm loop. -/
def runCycle (api : ApiBehavior) (current_minute : String) (now : PyDateTime)
    (st : CycleState) (swarms : List Swarm) : Except String CycleState :=
  List.foldlM (evalSwarm api current_minute now) st swarms

/-- What one invocation of the sensor produces: the cursor visible to
the next cycle (`update_cursor` argument, or the unchanged incoming
cursor when `update_cursor` was not reached), the outcome, and the log
of issued trigger calls. -/
structure SensorResult where
  cursorOut : Option String
  outcome : Outcome
  calls : List String
  deriving DecidableEq

/-- Lines 88-139 of sensors.py, after the cursor has been loaded:
prune, fetch (aborting with a skip on failure, before any persisted
mutation), evaluate every swarm, persist the cursor, report. -/
def sensor_after_load (api : ApiBehavior) (cursorIn : Option String) (now : PyDateTime)
    (cursor0 : Dict) : Except String SensorResult :=
  let current_minute := fmtMinute now
  let pruned := pruneLedger now cursor0
  match api.get_swarms with
  | Except.error e =>
    Except.ok ⟨cursorIn, Outcome.skipped ("API error: " ++ e), []⟩
  | Except.ok swarms =>
    match runCycle api current_minute now ⟨pruned, [], []⟩ swarms with
    | Except.error e => Except.error e
    | Except.ok fin =>
      let out := some (json_dumps fin.cursor)
      if fin.triggered = [] then
        Except.ok ⟨out, Outcome.skipped "No swarms matched current time", fin.calls⟩
      else
        Except.ok ⟨out, Outcome.triggered fin.triggered, fin.calls⟩

/-- Lines 70-139 of sensors.py: one full evaluation cycle, starting
from the raw cursor text.  A `json.loads` failure at line 86
propagates out of the sensor (`Except.error`). -/
def swarm_schedule_sensor (api : ApiBehavior) (cursorIn : Option String)
    (now : PyDateTime) : Except String SensorResult :=
  match json_loads (pyOrDefault cursorIn) with
  | Except.error e => Except.error e
  | Except.ok cursor0 => sensor_after_load api cursorIn now cursor0

/-! ## Field shapes: the five supported cron field forms

`parseField` classifies a field string by the same branch order as
`matches_field` (wildcard, then step, then range, then list, then
literal) and succeeds exactly when evaluating the field cannot raise;
`shapeMatches` is the field semantics as worded in the spec. -/

def isOkB : Except String Bool → Bool
  | Except.ok _ => true
  | Except.error _ => false

inductive FieldShape where
  | wild
  | step (base : String) (n : Int)
  | range (a b : Int)
  | listOf (xs : List Int)
  | lit (n : Int)
  deriving DecidableEq

def parseField (f : String) : Option FieldShape :=
  if f = "*" then some FieldShape.wild
  else if f.data.contains '/' then
    match splitChar '/' f with
    | [base, step] =>
      match pyInt step with
      | some sv => if base = "*" && sv == 0 then none else some (FieldShape.step base sv)
      | none => none
    | _ => none
  else if f.data.contains '-' then
    match splitChar '-' f with
    | [a, b] =>
      match pyInt a with
      | some x =>
        match pyInt b with
        | some y => some (FieldShape.range x y)
        | none => none
      | none => none
    | _ => none
  else if f.data.contains ',' then
    match (splitChar ',' f).mapM pyInt with
    | some xs => some (FieldShape.listOf xs)
    | none => none
  else
    match pyInt f with
    | some n => some (FieldShape.lit n)
    | none => none

/-- The per-form matching rules exactly as the spec words them:
wildcard always matches; a step matches iff its base is `*` and the
value is divisible; a range matches iff the value lies inclusively
between the bounds; a list matches iff the value is listed; a literal
matches iff equal. -/
def shapeMatches : FieldShape → Int → Bool
  | FieldShape.wild, _ => true
  | FieldShape.step base n, v => base == "*" && v % n == 0
  | FieldShape.range a b, v => decide (a ≤ v) && decide (v ≤ b)
  | FieldShape.listOf xs, v => xs.contains v
  | FieldShape.lit n, v => v == n

theorem skipWs_cons_of_ws {c : Char} (h : isJsonWs c = true) (r : List Char) :
    skipWs (c :: r) = skipWs r := by
  show (if isJsonWs c then skipWs r else c :: r) = skipWs r
  rw [if_pos h]

theorem skipWs_cons_of_not_ws {c : Char} (h : isJsonWs c = false) (r : List Char) :
    skipWs (c :: r) = c :: r := by
  show (if isJsonWs c then skipWs r else c :: r) = c :: r
  rw [if_neg (by simp [h])]

theorem matches_field_of_parseField {f : String} {sh : FieldShape} (v : Int)
    (h : parseField f = some sh) :
    matches_field f v = Except.ok (shapeMatches sh v) := by
  unfold parseField at h
  unfold matches_field
  by_cases h1 : f = "*"
  · rw [if_pos h1] at h ⊢
    cases h
    rfl
  · rw [if_neg h1] at h ⊢
    by_cases h2 : f.data.contains '/' = true
    · rw [if_pos h2] at h ⊢
      match hs : splitChar '/' f with
      | [base, step] =>
        simp only [hs] at h ⊢
        match hp : pyInt step with
        | some sv =>
          simp only [hp] at h ⊢
          by_cases hb : (base = "*" && sv == 0) = true
          · rw [if_pos hb] at h
            exact Option.noConfusion h
          · rw [if_neg hb] at h
            cases h
            by_cases hbase : base = "*"
            · have hsv : ¬ sv = 0 := by
                intro h0
                exact hb (by simp [hbase, h0])
              rw [if_pos hbase, if_neg hsv]
              simp [shapeMatches, hbase]
            · rw [if_neg hbase]
              simp [shapeMatches, hbase]
        | none =>
          simp only [hp] at h
          exact Option.noConfusion h
      | [] => simp only [hs] at h; exact Option.noConfusion h
      | [x] => simp only [hs] at h; exact Option.noConfusion h
      | x :: y :: z :: rest => simp only [hs] at h; exact Option.noConfusion h
    · rw [if_neg h2] at h ⊢
      by_cases h3 : f.data.contains '-' = true
      · rw [if_pos h3] at h ⊢
        match hs : splitChar '-' f with
        | [a, b] =>
          simp only [hs] at h ⊢
          match hpa : pyInt a with
          | some x =>
            simp only [hpa] at h ⊢
            match hpb : pyInt b with
            | some y =>
              simp only [hpb] at h ⊢
              cases h
              rfl
            | none =>
              simp only [hpb] at h
              exact Option.noConfusion h
          | none =>
            simp only [hpa] at h
            exact Option.noConfusion h
        | [] => simp only [hs] at h; exact Option.noConfusion h
        | [x] => simp only [hs] at h; exact Option.noConfusion h
        | x :: y :: z :: rest => simp only [hs] at h; exact Option.noConfusion h
      · rw [if_neg h3] at h ⊢
        by_cases h4 : f.data.contains ',' = true
        · rw [if_pos h4] at h ⊢
          match hm : (splitChar ',' f).mapM pyInt with
          | some xs =>
            simp only [hm] at h ⊢
            cases h
            rfl
          | none =>
            simp only [hm] at h
            exact Option.noConfusion h
        · rw [if_neg h4] at h ⊢
          match hp : pyInt f with
          | some n =>
            simp only [hp] at h ⊢
            cases h
            rfl
          | none =>
            simp only [hp] at h
            exact Option.noConfusion h

/-- A 5-field expression whose fields all parse evaluates to the
conjunction of the five independent field checks. -/
theorem cron_matches_of_shapes {expr : String} (dt : PyDateTime)
    {f1 f2 f3 f4 f5 : String} {s1 s2 s3 s4 s5 : FieldShape}
    (hsplit : pySplitWs expr = [f1, f2, f3, f4, f5])
    (h1 : parseField f1 = some s1) (h2 : parseField f2 = some s2)
    (h3 : parseField f3 = some s3) (h4 : parseField f4 = some s4)
    (h5 : parseField f5 = some s5) :
    cron_matches expr dt = Except.ok
      (shapeMatches s1 (dt.minute : Int) && shapeMatches s2 (dt.hour : Int) &&
       shapeMatches s3 (dt.day : Int) && shapeMatches s4 (dt.month : Int) &&
       shapeMatches s5 (cron_weekday dt : Int)) := by
  unfold cron_matches
  simp only [hsplit]
  rw [matches_field_of_parseField (dt.minute : Int) h1]
  cases hb1 : shapeMatches s1 (dt.minute : Int)
  · simp
  · rw [matches_field_of_parseField (dt.hour : Int) h2]
    cases hb2 : shapeMatches s2 (dt.hour : Int)
    · simp
    · rw [matches_field_of_parseField (dt.day : Int) h3]
      cases hb3 : shapeMatches s3 (dt.day : Int)
      · simp
      · rw [matches_field_of_parseField (dt.month : Int) h4]
        cases hb4 : shapeMatches s4 (dt.month : Int)
        · simp
        · rw [matches_field_of_parseField (cron_weekday dt : Int) h5]
          simp

/-- C2 counterexample: the minute field `abc` reaches `int("abc")`,
which raises a `ValueError` that `cron_matches` does not catch, so the
matcher does not return false for this non-numeric token — it raises. -/
theorem cron_matches_nonnumeric_raises :
    cron_matches "abc * * * *" ⟨2024, 1, 15, 9, 0⟩ =
      Except.error "ValueError: invalid literal for int" := by rfl

/-- C2 (amended): a field count different from 5 evaluates to false
without raising, and a step whose base is not `*` (a combined modifier
such as `1-5/2`) evaluates to false without raising; and an expression
whose five fields each have a supported shape never raises.  (A field
that requires parsing a non-numeric token raises, per the
counterexample.) -/
theorem cron_matches_permissive_amended :
    (∀ (expr : String) (dt : PyDateTime), (pySplitWs expr).length ≠ 5 →
      cron_matches expr dt = Except.ok false) ∧
    (∀ (f : String) (v : Int) (base step : String) (sv : Int),
      splitChar '/' f = [base, step] → f ≠ "*" → f.data.contains '/' = true →
      pyInt step = some sv → base ≠ "*" → matches_field f v = Except.ok false) ∧
    (∀ (expr : String) (dt : PyDateTime) (f1 f2 f3 f4 f5 : String)
      (s1 s2 s3 s4 s5 : FieldShape), pySplitWs expr = [f1, f2, f3, f4, f5] →
      parseField f1 = some s1 → parseField f2 = some s2 → parseField f3 = some s3 →
      parseField f4 = some s4 → parseField f5 = some s5 →
      isOkB (cron_matches expr dt) = true) := by
  refine ⟨?_, ?_, ?_⟩
  · intro expr dt hlen
    unfold cron_matches
    match hs : pySplitWs expr with
    | [] => simp only [hs]
    | [a] => simp only [hs]
    | [a, b] => simp only [hs]
    | [a, b, c] => simp only [hs]
    | [a, b, c, d] => simp only [hs]
    | [a, b, c, d, e] =>
      rw [hs] at hlen
      simp at hlen
    | a :: b :: c :: d :: e :: f :: rest => simp only [hs]
  · intro f v base step sv hsplit hne hcont hp hbase
    unfold matches_field
    rw [if_neg hne, if_pos hcont]
    simp only [hsplit, hp]
    rw [if_neg hbase]
  · intro expr dt f1 f2 f3 f4 f5 s1 s2 s3 s4 s5 hsplit h1 h2 h3 h4 h5
    rw [cron_matches_of_shapes dt hsplit h1 h2 h3 h4 h5]
    rfl

/-- C2 witness: the amended theorem applied at concrete inputs — a
4-field expression evaluates to false, `1-5/2` evaluates to false, and
`*/15 0-5 1,15 12 3` evaluates without raising. -/
theorem cron_matches_permissive_amended_witness :
    cron_matches "* * * *" ⟨2024, 1, 15, 9, 4⟩ = Except.ok false ∧
    matches_field "1-5/2" 3 = Except.ok false ∧
    isOkB (cron_matches "*/15 0-5 1,15 12 3" ⟨2024, 1, 15, 9, 4⟩) = true := by
  refine ⟨?_, ?_, ?_⟩
  · exact cron_matches_permissive_amended.1 "* * * *" ⟨2024, 1, 15, 9, 4⟩ (by decide)
  · exact cron_matches_permissive_amended.2.1 "1-5/2" 3 "1-5" "2" 2 (by decide)
      (by decide) (by decide) (by decide) (by decide)
  · exact cron_matches_permissive_amended.2.2 "*/15 0-5 1,15 12 3" ⟨2024, 1, 15, 9, 4⟩
      "*/15" "0-5" "1,15" "12" "3"
      (FieldShape.step "*" 15) (FieldShape.range 0 5) (FieldShape.listOf [1, 15])
      (FieldShape.lit 12) (FieldShape.lit 3)
      (by decide) (by decide) (by decide) (by decide) (by decide) (by decide)

/-- C5: for a 5-field expression the match is the logical AND of the
five independent field checks, with the wildcard/step/range/list/
literal semantics of `shapeMatches` (worded from the spec); and
`*/15 * * * *` matches exactly the minutes 0, 15, 30, 45. -/
theorem cron_field_semantics :
    (∀ (expr : String) (dt : PyDateTime) (f1 f2 f3 f4 f5 : String)
      (s1 s2 s3 s4 s5 : FieldShape), pySplitWs expr = [f1, f2, f3, f4, f5] →
      parseField f1 = some s1 → parseField f2 = some s2 → parseField f3 = some s3 →
      parseField f4 = some s4 → parseField f5 = some s5 →
      cron_matches expr dt = Except.ok
        (shapeMatches s1 (dt.minute : Int) && shapeMatches s2 (dt.hour : Int) &&
         shapeMatches s3 (dt.day : Int) && shapeMatches s4 (dt.month : Int) &&
         shapeMatches s5 (cron_weekday dt : Int))) ∧
    (∀ dt : PyDateTime,
      cron_matches "*/15 * * * *" dt = Except.ok ((dt.minute : Int) % 15 == 0)) ∧
    (∀ dt : PyDateTime, dt.minute < 60 →
      (cron_matches "*/15 * * * *" dt = Except.ok true ↔
        dt.minute = 0 ∨ dt.minute = 15 ∨ dt.minute = 30 ∨ dt.minute = 45)) := by
  have hquarter : ∀ dt : PyDateTime,
      cron_matches "*/15 * * * *" dt = Except.ok ((dt.minute : Int) % 15 == 0) := by
    intro dt
    rw [@cron_matches_of_shapes "*/15 * * * *" dt "*/15" "*" "*" "*" "*"
      (FieldShape.step "*" 15) FieldShape.wild FieldShape.wild FieldShape.wild
      FieldShape.wild
      (by decide) (by decide) (by decide) (by decide) (by decide) (by decide)]
    simp [shapeMatches]
  refine ⟨fun expr dt f1 f2 f3 f4 f5 s1 s2 s3 s4 s5 hs h1 h2 h3 h4 h5 =>
    cron_matches_of_shapes dt hs h1 h2 h3 h4 h5, hquarter, ?_⟩
  intro dt hlt
  rw [hquarter dt]
  constructor
  · intro h
    have hb := Except.ok.inj h
    have hz : (dt.minute : Int) % 15 = 0 := beq_iff_eq.mp hb
    omega
  · intro h
    have hz : (dt.minute : Int) % 15 = 0 := by omega
    rw [beq_iff_eq.mpr hz]

/-- C5 witness: the field-semantics clause applied to the concrete
expression `*/15 0-5 1,15 12 3` at an instant, and the quarter-hour
examples at minutes 30 and 7. -/
theorem cron_field_semantics_witness :
    cron_matches "*/15 0-5 1,15 12 0" ⟨2024, 12, 15, 3, 30⟩ = Except.ok true ∧
    (cron_matches "*/15 * * * *" ⟨2024, 1, 15, 9, 30⟩ = Except.ok true ↔
      (30 : Nat) = 0 ∨ (30 : Nat) = 15 ∨ (30 : Nat) = 30 ∨ (30 : Nat) = 45) := by
  constructor
  · rw [cron_field_semantics.1 "*/15 0-5 1,15 12 0" ⟨2024, 12, 15, 3, 30⟩
      "*/15" "0-5" "1,15" "12" "0"
      (FieldShape.step "*" 15) (FieldShape.range 0 5) (FieldShape.listOf [1, 15])
      (FieldShape.lit 12) (FieldShape.lit 0)
      (by decide) (by decide) (by decide) (by decide) (by decide) (by decide)]
    rfl
  · exact cron_field_semantics.2.2 ⟨2024, 1, 15, 9, 30⟩ (by decide)

/-- C6: the matcher uses the cron weekday convention 0 = Sunday ..
6 = Saturday, obtained from the native numbering (0 = Monday) by
`(weekday + 1) % 7`; `0 9 * * 1` matches Monday 2024-01-15 09:00 UTC
and not Tuesday 2024-01-16 09:00 UTC. -/
theorem weekday_convention :
    (∀ dt : PyDateTime, cron_weekday dt = (pyWeekday dt + 1) % 7) ∧
    (∀ dt : PyDateTime, cron_weekday dt < 7) ∧
    (∀ dt : PyDateTime, (cron_weekday dt = 0 ↔ pyWeekday dt = 6)) ∧
    pyWeekday ⟨2024, 1, 15, 9, 0⟩ = 0 ∧
    cron_matches "0 9 * * 1" ⟨2024, 1, 15, 9, 0⟩ = Except.ok true ∧
    cron_matches "0 9 * * 1" ⟨2024, 1, 16, 9, 0⟩ = Except.ok false := by
  refine ⟨fun dt => rfl, fun dt => Nat.mod_lt _ (by decide), ?_, by rfl, by rfl, by rfl⟩
  intro dt
  have h7 : pyWeekday dt < 7 := Nat.mod_lt _ (by decide)
  unfold cron_weekday
  omega

/-- C6 witness: the Sunday-is-zero equivalence instantiated at
2024-01-14, a Sunday. -/
theorem weekday_convention_witness :
    (cron_weekday ⟨2024, 1, 14, 0, 0⟩ = 0 ↔ pyWeekday ⟨2024, 1, 14, 0, 0⟩ = 6) ∧
    cron_weekday ⟨2024, 1, 14, 0, 0⟩ = 0 :=
  ⟨weekday_convention.2.2.1 ⟨2024, 1, 14, 0, 0⟩, by rfl⟩

/-- C7: the schedule resolver returns null for a null schedule type,
returns any truthy explicit cron expression verbatim regardless of the
(truthy) schedule type, otherwise falls back to the fixed defaults
table, and unknown schedule types resolve to null. -/
theorem schedule_resolver_cases :
    (∀ s : Swarm, s.schedule_type = none → get_effective_cron s = none) ∧
    (∀ (s : Swarm) (st : String), s.schedule_type = some st → st ≠ "" →
      truthyS s.cron_expression = true → get_effective_cron s = s.cron_expression) ∧
    (∀ (s : Swarm) (st : String), s.schedule_type = some st → st ≠ "" →
      truthyS s.cron_expression = false → get_effective_cron s = scheduleDefaults st) ∧
    scheduleDefaults "daily" = some "0 9 * * *" ∧
    scheduleDefaults "weekly" = some "0 9 * * 1" ∧
    scheduleDefaults "monthly" = some "0 9 1 * *" ∧
    (∀ st : String, st ≠ "daily" → st ≠ "weekly" → st ≠ "monthly" →
      scheduleDefaults st = none) := by
  refine ⟨?_, ?_, ?_, rfl, rfl, rfl, ?_⟩
  · intro s h
    unfold get_effective_cron
    simp only [h]
  · intro s st hst hne htr
    unfold get_effective_cron
    simp only [hst]
    rw [if_neg hne]
    match hce : s.cron_expression with
    | some ce =>
      rw [hce] at htr
      have hcne : ¬ ce = "" := by simpa [truthyS] using htr
      simp only [hce]
      rw [if_neg hcne]
    | none =>
      rw [hce] at htr
      simp [truthyS] at htr
  · intro s st hst hne htr
    unfold get_effective_cron
    simp only [hst]
    rw [if_neg hne]
    match hce : s.cron_expression with
    | some ce =>
      rw [hce] at htr
      have hcz : ce = "" := by simpa [truthyS] using htr
      simp only [hce]
      rw [if_pos hcz]
    | none => simp only [hce]
  · intro st h1 h2 h3
    unfold scheduleDefaults
    rw [if_neg h1, if_neg h2, if_neg h3]

/-- C7 witness: the resolver clauses at concrete swarms — null type,
weekly default, and explicit override. -/
theorem schedule_resolver_cases_witness :
    get_effective_cron ⟨some "i", none, none, none, none⟩ = none ∧
    get_effective_cron ⟨some "i", none, none, some "weekly", none⟩ =
      scheduleDefaults "weekly" ∧
    scheduleDefaults "weekly" = some "0 9 * * 1" ∧
    get_effective_cron ⟨some "i", none, none, some "daily", some "1 2 3 4 5"⟩ =
      some "1 2 3 4 5" :=
  ⟨schedule_resolver_cases.1 _ rfl,
   schedule_resolver_cases.2.2.1 _ "weekly" rfl (by decide) (by rfl),
   schedule_resolver_cases.2.2.2.2.1,
   schedule_resolver_cases.2.1 _ "daily" rfl (by decide) (by rfl)⟩

/-- C8 counterexample: with `now = 2024-01-15 09:30`, the ledger entry
`2024-01-15-07-00:a` has a slot two hours before `now` (not in the
current hour) and a date portion equal to — not lexically after —
todays date, yet `prune` retains it: the full key compares greater
than the 10-character date prefix because it properly extends it. -/
theorem prune_claim_counterexample :
    pruneLedger ⟨2024, 1, 15, 9, 30⟩ [("2024-01-15-07-00:a", true)] =
      [("2024-01-15-07-00:a", true)] ∧
    pyStartsWith "2024-01-15-07-00:a" (fmtHour ⟨2024, 1, 15, 9, 30⟩) = false ∧
    strTake "2024-01-15-07-00:a" 10 = strTake (fmtHour ⟨2024, 1, 15, 9, 30⟩) 10 ∧
    strLt (strTake (fmtHour ⟨2024, 1, 15, 9, 30⟩) 10)
      (strTake "2024-01-15-07-00:a" 10) = false :=
  ⟨rfl, rfl, rfl, rfl⟩

/-- C8 (amended): `prune` retains exactly the entries whose key starts
with the current hour prefix or compares lexically greater than the
10-character date prefix of today — which keeps every key that extends
todays date, including slots from earlier hours of the same day; all
other entries are removed. -/
theorem mem_pruneLedger_iff {now : PyDateTime} {d : Dict} {kv : String × Bool} :
    kv ∈ pruneLedger now d ↔
      kv ∈ d ∧ (pyStartsWith kv.1 (fmtHour now) = true ∨
        strLt (strTake (fmtHour now) 10) kv.1 = true) := by
  unfold pruneLedger
  rw [List.mem_filter]
  simp [Bool.or_eq_true]

theorem prune_retention_amended :
    ∀ (now : PyDateTime) (d : Dict) (kv : String × Bool),
      kv ∈ pruneLedger now d ↔
        kv ∈ d ∧ (pyStartsWith kv.1 (fmtHour now) = true ∨
          strLt (strTake (fmtHour now) 10) kv.1 = true) := by
  intro now d kv
  exact mem_pruneLedger_iff

/-- C8 witness: the amended retention rule instantiated on a two-entry
ledger — the previous-day entry is dropped, the current-hour entry is
kept. -/
theorem prune_retention_amended_witness :
    ("2024-01-15-09-00:c", true) ∈ pruneLedger ⟨2024, 1, 15, 9, 30⟩
      [("2024-01-14-22-00:b", true), ("2024-01-15-09-00:c", true)] ∧
    ¬ ("2024-01-14-22-00:b", true) ∈ pruneLedger ⟨2024, 1, 15, 9, 30⟩
      [("2024-01-14-22-00:b", true), ("2024-01-15-09-00:c", true)] := by
  constructor
  · exact (prune_retention_amended ⟨2024, 1, 15, 9, 30⟩ _ _).mpr
      ⟨by decide, Or.inl (by rfl)⟩
  · intro hmem
    have h := (prune_retention_amended ⟨2024, 1, 15, 9, 30⟩ _ _).mp hmem
    rcases h.2 with h2 | h2
    · exact absurd h2 (by decide)
    · exact absurd h2 (by decide)

/-- C9: the cursor loader yields the empty ledger for a missing or
empty cursor, proceeds with the decoded mapping when the cursor text
parses, and propagates a parse error out of the sensor (no silent
recovery) when it does not. -/
theorem cursor_loading :
    json_loads (pyOrDefault none) = Except.ok [] ∧
    json_loads (pyOrDefault (some "")) = Except.ok [] ∧
    (∀ (s : String) (d : Dict) (api : ApiBehavior) (now : PyDateTime),
      s ≠ "" → json_loads s = Except.ok d →
      swarm_schedule_sensor api (some s) now = sensor_after_load api (some s) now d) ∧
    (∀ (s : String) (e : String) (api : ApiBehavior) (now : PyDateTime),
      s ≠ "" → json_loads s = Except.error e →
      swarm_schedule_sensor api (some s) now = Except.error e) := by
  refine ⟨rfl, rfl, ?_, ?_⟩
  · intro s d api now hne hl
    unfold swarm_schedule_sensor
    have hd : pyOrDefault (some s) = s := by
      simp [pyOrDefault, hne]
    rw [hd, hl]
  · intro s e api now hne hl
    unfold swarm_schedule_sensor
    have hd : pyOrDefault (some s) = s := by
      simp [pyOrDefault, hne]
    rw [hd, hl]

/-- C9 witness: the loader clauses at concrete cursors — a well-formed
cursor is decoded and used, and the malformed cursor text `not json`
makes the sensor raise. -/
theorem cursor_loading_witness :
    swarm_schedule_sensor ⟨Except.error "down", fun _ => Except.ok ()⟩
        (some "\x7b\"k\": true\x7d") ⟨2024, 1, 15, 9, 0⟩ =
      sensor_after_load ⟨Except.error "down", fun _ => Except.ok ()⟩
        (some "\x7b\"k\": true\x7d") ⟨2024, 1, 15, 9, 0⟩ [("k", true)] ∧
    swarm_schedule_sensor ⟨Except.error "down", fun _ => Except.ok ()⟩
        (some "not json") ⟨2024, 1, 15, 9, 0⟩ = Except.error "JSONDecodeError" :=
  ⟨cursor_loading.2.2.1 _ [("k", true)] _ _ (by decide) (by rfl),
   cursor_loading.2.2.2 _ "JSONDecodeError" _ _ (by decide) (by rfl)⟩

/-- C3: when the registry fetch fails, the cycle aborts before any
persisted mutation — the outgoing cursor is exactly the incoming
cursor (the in-memory pruning is not persisted), no trigger call is
issued, and the outcome is a skip carrying the fetch error. -/
theorem fetch_failure_atomic :
    ∀ (api : ApiBehavior) (cIn : Option String) (now : PyDateTime) (d : Dict)
      (e : String),
      api.get_swarms = Except.error e →
      json_loads (pyOrDefault cIn) = Except.ok d →
      swarm_schedule_sensor api cIn now =
        Except.ok ⟨cIn, Outcome.skipped ("API error: " ++ e), []⟩ := by
  intro api cIn now d e hf hl
  unfold swarm_schedule_sensor
  rw [hl]
  show sensor_after_load api cIn now d = _
  unfold sensor_after_load
  rw [hf]

/-- C3 witness: the fetch-failure theorem applied to a concrete failing
API and a nonempty incoming cursor, which is returned unchanged. -/
theorem fetch_failure_atomic_witness :
    swarm_schedule_sensor ⟨Except.error "boom", fun _ => Except.ok ()⟩
        (some "\x7b\"old\": true\x7d") ⟨2024, 1, 15, 9, 0⟩ =
      Except.ok ⟨some "\x7b\"old\": true\x7d",
        Outcome.skipped ("API error: " ++ "boom"), []⟩ :=
  fetch_failure_atomic _ _ _ [("old", true)] "boom" rfl (by rfl)

/-! ### Dictionary lemmas -/

theorem dcontains_iff {d : Dict} {k : String} :
    dcontains d k = true ↔ ∃ v, (k, v) ∈ d := by
  unfold dcontains
  rw [List.any_eq_true]
  constructor
  · rintro ⟨kv, hmem, hb⟩
    refine ⟨kv.2, ?_⟩
    have hk : kv.1 = k := by simpa using hb
    rw [← hk]
    exact hmem
  · rintro ⟨v, hmem⟩
    exact ⟨(k, v), hmem, by simp⟩

theorem dcontains_append {a b : Dict} {k : String} :
    dcontains (a ++ b) k = (dcontains a k || dcontains b k) := by
  unfold dcontains
  exact List.any_append

theorem dcontains_map_keyfix (d : Dict) (k k2 : String) (v : Bool) :
    dcontains (d.map (fun kv => if kv.1 == k then (k, v) else kv)) k2 =
      dcontains d k2 := by
  induction d with
  | nil => rfl
  | cons kv rest ih =>
    unfold dcontains at ih ⊢
    simp only [List.map_cons, List.any_cons]
    by_cases h : (kv.1 == k) = true
    · rw [if_pos h]
      have hk : kv.1 = k := by simpa using h
      rw [ih, hk]
    · rw [if_neg h, ih]

theorem dcontains_dinsert {d : Dict} {k k2 : String} {v : Bool} :
    dcontains (dinsert d k v) k2 = (dcontains d k2 || k == k2) := by
  unfold dinsert
  by_cases h : dcontains d k = true
  · rw [if_pos h, dcontains_map_keyfix]
    by_cases hk : (k == k2) = true
    · have h2 : dcontains d k2 = true := by
        rw [← beq_iff_eq.mp hk]
        exact h
      rw [h2, hk]
      rfl
    · rw [Bool.eq_false_iff.mpr hk, Bool.or_false]
  · rw [if_neg h, dcontains_append]
    simp [dcontains]

theorem dget_map_keyfix_self (d : Dict) (k : String) (v : Bool)
    (h : dcontains d k = true) :
    dget (d.map (fun kv => if kv.1 == k then (k, v) else kv)) k = some v := by
  induction d with
  | nil => simp [dcontains] at h
  | cons kv rest ih =>
    simp only [List.map_cons]
    by_cases hh : (kv.1 == k) = true
    · rw [if_pos hh]
      unfold dget
      simp [List.find?]
    · rw [if_neg hh]
      have h2 : dcontains rest k = true := by
        unfold dcontains at h
        simp only [List.any_cons] at h
        rcases Bool.or_eq_true_iff.mp h with h1 | h1
        · exact absurd h1 hh
        · exact h1
      have hf : (kv.1 == k) = false := Bool.eq_false_iff.mpr hh
      unfold dget at ih ⊢
      simp only [List.find?, hf]
      exact ih h2

theorem dget_map_keyfix_ne (d : Dict) {k k2 : String} (v : Bool) (hne : k2 ≠ k) :
    dget (d.map (fun kv => if kv.1 == k then (k, v) else kv)) k2 = dget d k2 := by
  induction d with
  | nil => rfl
  | cons kv rest ih =>
    simp only [List.map_cons]
    unfold dget at ih ⊢
    by_cases hh : (kv.1 == k) = true
    · rw [if_pos hh]
      have hk1 : (k == k2) = false := by
        rw [Bool.eq_false_iff]
        intro hb
        exact hne (beq_iff_eq.mp hb).symm
      have hk2 : (kv.1 == k2) = false := by
        rw [Bool.eq_false_iff]
        intro hb
        apply hne
        rw [← beq_iff_eq.mp hb]
        exact beq_iff_eq.mp hh
      simp only [List.find?, hk1, hk2]
      exact ih
    · rw [if_neg hh]
      simp only [List.find?]
      cases hc : (kv.1 == k2) with
      | true => rfl
      | false => exact ih

theorem dget_append_single_ne (d : Dict) {k k2 : String} (v : Bool) (hne : k2 ≠ k) :
    dget (d ++ [(k, v)]) k2 = dget d k2 := by
  induction d with
  | nil =>
    unfold dget
    have hf : (k == k2) = false := by
      rw [Bool.eq_false_iff]
      intro hb
      exact hne (beq_iff_eq.mp hb).symm
    simp only [List.nil_append, List.find?, hf]
  | cons kv rest ih =>
    unfold dget at ih ⊢
    simp only [List.cons_append, List.find?]
    cases hc : (kv.1 == k2) with
    | true => rfl
    | false => exact ih

theorem dget_dinsert_self (d : Dict) (k : String) (v : Bool) :
    dget (dinsert d k v) k = some v := by
  unfold dinsert
  by_cases h : dcontains d k = true
  · rw [if_pos h]
    exact dget_map_keyfix_self d k v h
  · rw [if_neg h]
    induction d with
    | nil => simp [dget, List.find?]
    | cons kv rest ih =>
      by_cases hh : (kv.1 == k) = true
      · exfalso
        apply h
        unfold dcontains
        simp only [List.any_cons]
        rw [hh]
        rfl
      · have hf : (kv.1 == k) = false := Bool.eq_false_iff.mpr hh
        have h2 : ¬ dcontains rest k = true := by
          intro hc
          apply h
          unfold dcontains at hc ⊢
          simp only [List.any_cons]
          rw [hc]
          simp
        unfold dget at ih ⊢
        simp only [List.cons_append, List.find?, hf]
        exact ih h2

theorem dget_dinsert_ne (d : Dict) {k k2 : String} (v : Bool) (hne : k2 ≠ k) :
    dget (dinsert d k v) k2 = dget d k2 := by
  unfold dinsert
  by_cases h : dcontains d k = true
  · rw [if_pos h]
    exact dget_map_keyfix_ne d v hne
  · rw [if_neg h]
    exact dget_append_single_ne d v hne

theorem dcontains_of_dget {d : Dict} {k : String} {v : Bool}
    (h : dget d k = some v) : dcontains d k = true := by
  unfold dget at h
  unfold dcontains
  cases hf : List.find? (fun kv => kv.1 == k) d with
  | none => rw [hf] at h; exact Option.noConfusion h
  | some kv =>
    have hmem := List.mem_of_find?_eq_some hf
    have hp := List.find?_some hf
    rw [List.any_eq_true]
    exact ⟨kv, hmem, hp⟩

theorem mem_keys_iff_dcontains {d : Dict} {k : String} :
    k ∈ d.map (fun kv => kv.1) ↔ dcontains d k = true := by
  rw [dcontains_iff, List.mem_map]
  constructor
  · rintro ⟨kv, hm, he⟩
    refine ⟨kv.2, ?_⟩
    rw [← he]
    exact hm
  · rintro ⟨v, hm⟩
    exact ⟨(k, v), hm, rfl⟩

theorem dinsert_of_not_contains {d : Dict} {k : String} (v : Bool)
    (h : dcontains d k = false) : dinsert d k v = d ++ [(k, v)] := by
  unfold dinsert
  rw [if_neg (by simp [h])]

theorem NoDupKeys_nil : NoDupKeys [] := List.nodup_nil

theorem NoDupKeys_dinsert {d : Dict} {k : String} {v : Bool}
    (h : NoDupKeys d) : NoDupKeys (dinsert d k v) := by
  unfold dinsert
  by_cases hc : dcontains d k = true
  · rw [if_pos hc]
    unfold NoDupKeys at h ⊢
    have heq : (d.map (fun kv => if kv.1 == k then (k, v) else kv)).map
        (fun kv => kv.1) = d.map (fun kv => kv.1) := by
      rw [List.map_map]
      apply List.map_congr_left
      intro kv _
      by_cases hh : (kv.1 == k) = true
      · simp only [Function.comp, if_pos hh]
        exact (beq_iff_eq.mp hh).symm
      · simp only [Function.comp, if_neg hh]
    rw [heq]
    exact h
  · rw [if_neg hc]
    unfold NoDupKeys at h ⊢
    rw [List.map_append]
    rw [List.nodup_append]
    refine ⟨h, List.nodup_singleton _, ?_⟩
    intro a ha hb
    simp only [List.map_cons, List.map_nil, List.mem_singleton] at hb
    rw [hb] at ha
    exact hc (mem_keys_iff_dcontains.mp ha)

theorem NoDupKeys_filter {d : Dict} (p : String × Bool → Bool)
    (h : NoDupKeys d) : NoDupKeys (d.filter p) := by
  unfold NoDupKeys at h ⊢
  exact List.Nodup.sublist (List.Sublist.map _ (List.filter_sublist d)) h

/-! ### JSON round trip -/

theorem parseStrChars_esc (s rest : List Char) :
    parseStrChars ((s.map escChar).flatten ++ '"' :: rest) = some (s, rest) := by
  induction s with
  | nil =>
    show parseStrChars ('"' :: rest) = some ([], rest)
    unfold parseStrChars
    rw [if_pos rfl]
  | cons c cs ih =>
    by_cases h : c = '"' ∨ c = '\\'
    · have he : escChar c = ['\\', c] := by
        unfold escChar
        rw [if_pos h]
      show parseStrChars ((escChar c ++ (cs.map escChar).flatten) ++ '"' :: rest) = _
      rw [he]
      show parseStrChars ('\\' :: c :: ((cs.map escChar).flatten ++ '"' :: rest)) = _
      unfold parseStrChars
      rw [if_neg (by decide), if_pos rfl]
      show (if c = '"' ∨ c = '\\' then
          (parseStrChars ((cs.map escChar).flatten ++ '"' :: rest)).map
            (fun p => (c :: p.1, p.2))
        else none) = some (c :: cs, rest)
      rw [if_pos h, ih]
      rfl
    · have he : escChar c = [c] := by
        unfold escChar
        rw [if_neg h]
      have hq : ¬ c = '"' := fun hc => h (Or.inl hc)
      have hb : ¬ c = '\\' := fun hc => h (Or.inr hc)
      show parseStrChars ((escChar c ++ (cs.map escChar).flatten) ++ '"' :: rest) = _
      rw [he]
      show parseStrChars (c :: ((cs.map escChar).flatten ++ '"' :: rest)) = _
      unfold parseStrChars
      rw [if_neg hq, if_neg hb, ih]
      rfl

theorem parseBoolChars_dump (b : Bool) (rest : List Char) :
    parseBoolChars ((if b then ['t', 'r', 'u', 'e'] else ['f', 'a', 'l', 's', 'e']) ++ rest) =
      some (b, rest) := by
  cases b
  · show parseBoolChars ('f' :: 'a' :: 'l' :: 's' :: 'e' :: rest) = some (false, rest)
    unfold parseBoolChars
    have hneg : ¬ (List.take 4 ('f' :: 'a' :: 'l' :: 's' :: 'e' :: rest) = "true".data) := by
      intro hcontra
      have h1 : 'f' = 't' := by injection hcontra
      exact absurd h1 (by decide)
    rw [if_neg hneg, if_pos (by rfl)]
    rfl
  · show parseBoolChars ('t' :: 'r' :: 'u' :: 'e' :: rest) = some (true, rest)
    unfold parseBoolChars
    rw [if_pos (by rfl)]
    rfl

theorem parseMembers_skip_space (fuel : Nat) (acc : Dict) (x : List Char) :
    parseMembers (fuel + 1) acc (' ' :: x) = parseMembers (fuel + 1) acc x := by
  unfold parseMembers
  rw [skipWs_cons_of_ws (show isJsonWs ' ' = true from rfl)]

theorem parseMembers_entry (fuel : Nat) (acc : Dict) (k : String) (v : Bool)
    (post : List Char) :
    parseMembers (fuel + 1) acc (dumpEntryChars (k, v) ++ post) =
      (match skipWs post with
       | [] => none
       | c3 :: r4 =>
         if c3 = ',' then parseMembers fuel (dinsert acc k v) r4
         else if c3 = '\x7d' then some (dinsert acc k v, r4)
         else none) := by
  have hshape : dumpEntryChars (k, v) ++ post
      = '"' :: ((k.data.map escChar).flatten ++ ('"' :: ':' :: ' ' ::
          ((if v then "true".data else "false".data) ++ post))) := by
    simp [dumpEntryChars, List.append_assoc]
  have hB : skipWs ((if v = true then ['t', 'r', 'u', 'e'] else ['f', 'a', 'l', 's', 'e']) ++ post)
      = (if v = true then ['t', 'r', 'u', 'e'] else ['f', 'a', 'l', 's', 'e']) ++ post := by
    cases v
    · rfl
    · rfl
  conv_lhs => unfold parseMembers
  rw [hshape]
  simp only [skipWs_cons_of_not_ws (show isJsonWs '"' = false from rfl)]
  rw [if_pos trivial]
  simp only [parseStrChars_esc]
  simp only [skipWs_cons_of_not_ws (show isJsonWs ':' = false from rfl)]
  rw [if_pos trivial]
  simp only [skipWs_cons_of_ws (show isJsonWs ' ' = true from rfl)]
  rw [hB]
  simp only [parseBoolChars_dump]

theorem parseMembers_dump (d : Dict) :
    ∀ (acc : Dict) (rest : List Char) (fuel : Nat),
      d.length < fuel → d ≠ [] →
      (∀ kv ∈ d, dcontains acc kv.1 = false) →
      NoDupKeys d →
      parseMembers fuel acc (dumpMembersChars d ++ '\x7d' :: rest) =
        some (acc ++ d, rest) := by
  induction d with
  | nil =>
    intro acc rest fuel _ hne _ _
    exact absurd rfl hne
  | cons kv tail ih =>
    intro acc rest fuel hf _ hdisj hnd
    obtain ⟨f, rfl⟩ : ∃ f, fuel = f + 1 := ⟨fuel - 1, by omega⟩
    obtain ⟨k, v⟩ := kv
    have hdacc : dcontains acc k = false := hdisj (k, v) (List.mem_cons_self _ _)
    cases tail with
    | nil =>
      show parseMembers (f + 1) acc (dumpEntryChars (k, v) ++ '\x7d' :: rest) = _
      rw [parseMembers_entry]
      simp only [skipWs_cons_of_not_ws (show isJsonWs '\x7d' = false from rfl)]
      rw [if_pos trivial, dinsert_of_not_contains v hdacc]
      rw [if_neg (by decide)]
    | cons t ts =>
      have hassoc : dumpMembersChars ((k, v) :: t :: ts) ++ '\x7d' :: rest
          = dumpEntryChars (k, v) ++
            (',' :: ' ' :: (dumpMembersChars (t :: ts) ++ '\x7d' :: rest)) := by
        show (dumpEntryChars (k, v) ++ ',' :: ' ' :: dumpMembersChars (t :: ts))
            ++ '\x7d' :: rest = _
        rw [List.append_assoc]
        rfl
      rw [hassoc, parseMembers_entry]
      simp only [skipWs_cons_of_not_ws (show isJsonWs ',' = false from rfl)]
      rw [if_pos trivial]
      obtain ⟨f2, rfl⟩ : ∃ f2, f = f2 + 1 := ⟨f - 1, by
        simp only [List.length_cons] at hf
        omega⟩
      rw [parseMembers_skip_space, dinsert_of_not_contains v hdacc]
      have hknotin : ∀ kv2 ∈ t :: ts, ¬ k = kv2.1 := by
        intro kv2 hmem heq
        unfold NoDupKeys at hnd
        simp only [List.map_cons, List.nodup_cons] at hnd
        apply hnd.1
        have h3 : kv2.1 ∈ List.map (fun kv => kv.1) (t :: ts) :=
          List.mem_map_of_mem _ hmem
        simp only [List.map_cons] at h3
        rw [heq]
        exact h3
      have hdisj2 : ∀ kv2 ∈ t :: ts, dcontains (acc ++ [(k, v)]) kv2.1 = false := by
        intro kv2 hmem
        rw [dcontains_append]
        have h1 : dcontains acc kv2.1 = false := hdisj kv2 (List.mem_cons_of_mem _ hmem)
        have h2 : dcontains [(k, v)] kv2.1 = false := by
          unfold dcontains
          simp only [List.any_cons, List.any_nil, Bool.or_false]
          exact beq_eq_false_iff_ne.mpr (hknotin kv2 hmem)
        rw [h1, h2]
        rfl
      have hnd2 : NoDupKeys (t :: ts) := by
        unfold NoDupKeys at hnd ⊢
        simp only [List.map_cons, List.nodup_cons] at hnd ⊢
        exact hnd.2
      rw [ih (acc ++ [(k, v)]) rest (f2 + 1)
        (by simp only [List.length_cons] at hf ⊢; omega)
        (by simp) hdisj2 hnd2]
      rw [List.append_assoc]
      rfl

theorem length_le_dumpMembers (d : Dict) :
    d.length ≤ (dumpMembersChars d).length := by
  induction d with
  | nil => simp [dumpMembersChars]
  | cons kv tail ih =>
    cases tail with
    | nil =>
      show (kv :: []).length ≤ (dumpEntryChars kv).length
      unfold dumpEntryChars
      simp only [List.length_cons, List.length_nil]
      omega
    | cons t ts =>
      show (kv :: t :: ts).length ≤
        (dumpEntryChars kv ++ ',' :: ' ' :: dumpMembersChars (t :: ts)).length
      rw [List.length_append]
      simp only [List.length_cons] at ih ⊢
      omega

theorem json_loads_dumps {d : Dict} (hnd : NoDupKeys d) :
    json_loads (json_dumps d) = Except.ok d := by
  cases d with
  | nil => rfl
  | cons kv tail =>
    have hdata : (json_dumps (kv :: tail)).data
        = '\x7b' :: (dumpMembersChars (kv :: tail) ++ ['\x7d']) := rfl
    have hlen : (kv :: tail).length <
        ('\x7b' :: (dumpMembersChars (kv :: tail) ++ ['\x7d'])).length + 1 := by
      have h1 := length_le_dumpMembers (kv :: tail)
      simp only [List.length_cons, List.length_append] at h1 ⊢
      omega
    obtain ⟨y, hy⟩ : ∃ y, dumpMembersChars (kv :: tail) = '"' :: y := by
      cases tail
      · exact ⟨_, rfl⟩
      · exact ⟨_, rfl⟩
    have hsw : skipWs (dumpMembersChars (kv :: tail) ++ ['\x7d'])
        = '"' :: (y ++ ['\x7d']) := by
      rw [hy, List.cons_append]
      exact @skipWs_cons_of_not_ws '"' rfl (y ++ ['\x7d'])
    unfold json_loads
    rw [hdata]
    simp only [skipWs_cons_of_not_ws (show isJsonWs '\x7b' = false from rfl)]
    rw [if_pos trivial]
    simp only [hsw]
    simp only [parseMembers_dump (kv :: tail) [] []
      (('\x7b' :: (dumpMembersChars (kv :: tail) ++ ['\x7d'])).length + 1) hlen (by simp)
      (fun kv2 _ => rfl) hnd]
    rfl

theorem parseMembers_NoDupKeys :
    ∀ (fuel : Nat) (acc : Dict) (l : List Char) (d : Dict) (rest : List Char),
      parseMembers fuel acc l = some (d, rest) → NoDupKeys acc → NoDupKeys d := by
  intro fuel
  induction fuel with
  | zero =>
    intro acc l d rest h
    exact absurd h (by simp [parseMembers])
  | succ n ih =>
    intro acc l d rest h hacc
    unfold parseMembers at h
    repeat' split at h
    all_goals first
      | exact Option.noConfusion h
      | (cases h; exact NoDupKeys_dinsert hacc)
      | exact ih _ _ _ _ h (NoDupKeys_dinsert hacc)

theorem json_loads_NoDupKeys {s : String} {d : Dict}
    (h : json_loads s = Except.ok d) : NoDupKeys d := by
  unfold json_loads at h
  repeat' split at h
  all_goals first
    | exact Except.noConfusion h
    | (cases h; exact NoDupKeys_nil)
    | (cases h; exact parseMembers_NoDupKeys _ _ _ _ _ (by assumption) NoDupKeys_nil)

/-! ### Step lemmas for the per-swarm loop -/

theorem swarmEligible_elim {now : PyDateTime} {s : Swarm}
    (h : swarmEligible now s = true) :
    (s.is_paused == some true) = false ∧
    ∃ ce, get_effective_cron s = some ce ∧ (ce == "") = false ∧
      cron_matches ce now = Except.ok true := by
  unfold swarmEligible at h
  rw [Bool.and_eq_true] at h
  obtain ⟨h1, h2⟩ := h
  refine ⟨by simpa using h1, ?_⟩
  match hgec : get_effective_cron s with
  | none =>
    rw [hgec] at h2
    exact Bool.noConfusion h2
  | some ce =>
    simp only [hgec] at h2
    rw [Bool.and_eq_true] at h2
    obtain ⟨h3, h4⟩ := h2
    refine ⟨ce, rfl, by simpa using h3, ?_⟩
    match hcm : cron_matches ce now with
    | Except.ok true => rfl
    | Except.ok false =>
      rw [hcm] at h4
      exact Bool.noConfusion h4
    | Except.error e =>
      rw [hcm] at h4
      exact Bool.noConfusion h4

theorem evalSwarm_of_contained {api : ApiBehavior} {cm : String} {now : PyDateTime}
    {st : CycleState} {s : Swarm}
    (helig : swarmEligible now s = true)
    (hdc : dcontains st.cursor (dedupKeyFor cm s) = true) :
    evalSwarm api cm now st s = Except.ok st := by
  obtain ⟨hp, ce, hgec, hce, hcm⟩ := swarmEligible_elim helig
  unfold evalSwarm
  rw [if_neg (by simp [hp])]
  simp only [hgec]
  rw [if_neg (by simpa using hce)]
  simp only [hcm]
  rw [if_neg (by simp)]
  rw [if_pos hdc]

theorem evalSwarm_of_triggers {api : ApiBehavior} {cm : String} {now : PyDateTime}
    {st : CycleState} {s : Swarm} {dn : String}
    (helig : swarmEligible now s = true)
    (hdc : dcontains st.cursor (dedupKeyFor cm s) = false)
    (hdn : displayNameOf s = some dn)
    (hrun : api.run_swarm (pyStrOpt s.id) = Except.ok ()) :
    evalSwarm api cm now st s = Except.ok
      ⟨dinsert st.cursor (dedupKeyFor cm s) true, st.triggered ++ [dn],
        st.calls ++ [pyStrOpt s.id]⟩ := by
  obtain ⟨hp, ce, hgec, hce, hcm⟩ := swarmEligible_elim helig
  unfold evalSwarm
  rw [if_neg (by simp [hp])]
  simp only [hgec]
  rw [if_neg (by simpa using hce)]
  simp only [hcm]
  rw [if_neg (by simp)]
  rw [if_neg (by simp [hdc])]
  simp only [hdn, hrun]

theorem evalSwarm_of_freak {api : ApiBehavior} {cm : String} {now : PyDateTime}
    {st : CycleState} {s : Swarm}
    (helig : swarmEligible now s = true)
    (hdc : dcontains st.cursor (dedupKeyFor cm s) = false)
    (hdn : displayNameOf s = none) :
    evalSwarm api cm now st s = Except.ok st := by
  obtain ⟨hp, ce, hgec, hce, hcm⟩ := swarmEligible_elim helig
  unfold evalSwarm
  rw [if_neg (by simp [hp])]
  simp only [hgec]
  rw [if_neg (by simpa using hce)]
  simp only [hcm]
  rw [if_neg (by simp)]
  rw [if_neg (by simp [hdc])]
  simp only [hdn]

theorem evalSwarm_of_run_error {api : ApiBehavior} {cm : String} {now : PyDateTime}
    {st : CycleState} {s : Swarm} {dn : String} {e : String}
    (helig : swarmEligible now s = true)
    (hdc : dcontains st.cursor (dedupKeyFor cm s) = false)
    (hdn : displayNameOf s = some dn)
    (hrun : api.run_swarm (pyStrOpt s.id) = Except.error e) :
    evalSwarm api cm now st s = Except.ok
      ⟨st.cursor, st.triggered, st.calls ++ [pyStrOpt s.id]⟩ := by
  obtain ⟨hp, ce, hgec, hce, hcm⟩ := swarmEligible_elim helig
  unfold evalSwarm
  rw [if_neg (by simp [hp])]
  simp only [hgec]
  rw [if_neg (by simpa using hce)]
  simp only [hcm]
  rw [if_neg (by simp)]
  rw [if_neg (by simp [hdc])]
  simp only [hdn, hrun]

theorem evalSwarm_of_ineligible {api : ApiBehavior} {cm : String} {now : PyDateTime}
    {st : CycleState} {s : Swarm}
    (h1 : swarmEligible now s = false) (h2 : evalSwarmTotal now s = true) :
    evalSwarm api cm now st s = Except.ok st := by
  unfold swarmEligible at h1
  unfold evalSwarmTotal at h2
  unfold evalSwarm
  by_cases hp : (s.is_paused == some true) = true
  · rw [if_pos hp]
  · rw [if_neg hp]
    rw [Bool.eq_false_iff.mpr hp] at h1 h2
    simp only [Bool.not_false, Bool.true_and, Bool.false_or] at h1 h2
    match hgec : get_effective_cron s with
    | none => rfl
    | some ce =>
      simp only [hgec] at h1 h2
      rw [← hgec]
      simp only [hgec]
      by_cases hce : ce = ""
      · rw [if_pos hce]
      · rw [if_neg hce]
        rw [beq_eq_false_iff_ne.mpr hce] at h1 h2
        simp only [Bool.not_false, Bool.true_and, Bool.false_or] at h1 h2
        match hcm : cron_matches ce now with
        | Except.error e =>
          rw [hcm] at h2
          exact Bool.noConfusion h2
        | Except.ok true =>
          rw [hcm] at h1
          exact Bool.noConfusion h1
        | Except.ok false =>
          rw [← hcm]
          simp only [hcm]
          rw [if_pos trivial]

theorem swarmEligible_intro {now : PyDateTime} {s : Swarm} {ce : String}
    (hp : (s.is_paused == some true) = false)
    (hgec : get_effective_cron s = some ce) (hce : ce ≠ "")
    (hcm : cron_matches ce now = Except.ok true) : swarmEligible now s = true := by
  unfold swarmEligible
  simp only [hgec, hcm, hp]
  simp [hce]

theorem evalSwarm_ok_cases {api : ApiBehavior} {cm : String} {now : PyDateTime}
    {st : CycleState} {s : Swarm} {st' : CycleState}
    (h : evalSwarm api cm now st s = Except.ok st') :
    st' = st ∨
    (dcontains st.cursor (dedupKeyFor cm s) = false ∧ swarmEligible now s = true ∧
      ((api.run_swarm (pyStrOpt s.id) = Except.ok () ∧ ∃ dn, displayNameOf s = some dn ∧
          st' = ⟨dinsert st.cursor (dedupKeyFor cm s) true, st.triggered ++ [dn],
            st.calls ++ [pyStrOpt s.id]⟩) ∨
       ((∃ e, api.run_swarm (pyStrOpt s.id) = Except.error e) ∧
          (∃ dn, displayNameOf s = some dn) ∧
          st' = ⟨st.cursor, st.triggered, st.calls ++ [pyStrOpt s.id]⟩))) := by
  unfold evalSwarm at h
  by_cases hp : (s.is_paused == some true) = true
  · rw [if_pos hp] at h
    exact Or.inl (Except.ok.inj h).symm
  · rw [if_neg hp] at h
    match hgec : get_effective_cron s with
    | none =>
      simp only [hgec] at h
      exact Or.inl (Except.ok.inj h).symm
    | some ce =>
      simp only [hgec] at h
      by_cases hce : ce = ""
      · rw [if_pos hce] at h
        exact Or.inl (Except.ok.inj h).symm
      · rw [if_neg hce] at h
        match hcm : cron_matches ce now with
        | Except.error e =>
          simp only [hcm] at h
          exact Except.noConfusion h
        | Except.ok false =>
          simp only [hcm] at h
          exact Or.inl (Except.ok.inj h).symm
        | Except.ok true =>
          simp only [hcm] at h
          have helig : swarmEligible now s = true :=
            swarmEligible_intro (Bool.eq_false_iff.mpr hp) hgec hce hcm
          by_cases hdc : dcontains st.cursor (dedupKeyFor cm s) = true
          · rw [if_pos hdc] at h
            exact Or.inl (Except.ok.inj h).symm
          · rw [if_neg hdc] at h
            match hdn : displayNameOf s with
            | none =>
              simp only [hdn] at h
              exact Or.inl (Except.ok.inj h).symm
            | some dn =>
              simp only [hdn] at h
              match hrun : api.run_swarm (pyStrOpt s.id) with
              | Except.ok u =>
                simp only [hrun] at h
                cases u
                exact Or.inr ⟨Bool.eq_false_iff.mpr hdc, helig,
                  Or.inl ⟨rfl, dn, rfl, (Except.ok.inj h).symm⟩⟩
              | Except.error e =>
                simp only [hrun] at h
                exact Or.inr ⟨Bool.eq_false_iff.mpr hdc, helig,
                  Or.inr ⟨⟨e, rfl⟩, ⟨dn, rfl⟩, (Except.ok.inj h).symm⟩⟩

theorem evalSwarm_isOk {api : ApiBehavior} {cm : String} {now : PyDateTime}
    {st : CycleState} {s : Swarm} (ht : evalSwarmTotal now s = true) :
    ∃ st', evalSwarm api cm now st s = Except.ok st' := by
  by_cases helig : swarmEligible now s = true
  · by_cases hdc : dcontains st.cursor (dedupKeyFor cm s) = true
    · exact ⟨st, evalSwarm_of_contained helig hdc⟩
    · have hdcf : dcontains st.cursor (dedupKeyFor cm s) = false :=
        Bool.eq_false_iff.mpr hdc
      match hdn : displayNameOf s with
      | none => exact ⟨st, evalSwarm_of_freak helig hdcf hdn⟩
      | some dn =>
        match hrun : api.run_swarm (pyStrOpt s.id) with
        | Except.ok u =>
          cases u
          exact ⟨_, evalSwarm_of_triggers helig hdcf hdn hrun⟩
        | Except.error e =>
          exact ⟨_, evalSwarm_of_run_error helig hdcf hdn hrun⟩
  · exact ⟨st, evalSwarm_of_ineligible (Bool.eq_false_iff.mpr helig) ht⟩

/-! ### Loop-level lemmas -/

theorem runCycle_nil {api : ApiBehavior} {cm : String} {now : PyDateTime}
    {st st' : CycleState} (h : runCycle api cm now st [] = Except.ok st') :
    st' = st := by
  unfold runCycle at h
  exact (Except.ok.inj h).symm

theorem runCycle_cons {api : ApiBehavior} {cm : String} {now : PyDateTime}
    {st : CycleState} {s : Swarm} {swarms : List Swarm} {res : CycleState}
    (h : runCycle api cm now st (s :: swarms) = Except.ok res) :
    ∃ st1, evalSwarm api cm now st s = Except.ok st1 ∧
      runCycle api cm now st1 swarms = Except.ok res := by
  unfold runCycle at h ⊢
  rw [List.foldlM_cons] at h
  match he : evalSwarm api cm now st s with
  | Except.ok st1 =>
    rw [he] at h
    exact ⟨st1, rfl, h⟩
  | Except.error e =>
    rw [he] at h
    exact Except.noConfusion h

theorem str_append_left_cancel {p a b : String} (h : p ++ a = p ++ b) : a = b := by
  have h2 : p.data ++ a.data = p.data ++ b.data := congrArg String.data h
  have h3 : a.data = b.data := List.append_cancel_left h2
  cases a
  cases b
  exact congrArg String.mk h3

theorem runCycle_cursor_mono {api : ApiBehavior} {cm : String} {now : PyDateTime} :
    ∀ (swarms : List Swarm) (st st' : CycleState),
      runCycle api cm now st swarms = Except.ok st' →
      ∀ k, dcontains st.cursor k = true → dcontains st'.cursor k = true := by
  intro swarms
  induction swarms with
  | nil =>
    intro st st' h k hk
    rw [runCycle_nil h]
    exact hk
  | cons s rest ih =>
    intro st st' h k hk
    obtain ⟨st1, h1, h2⟩ := runCycle_cons h
    rcases evalSwarm_ok_cases h1 with heq | ⟨hdc, helig, hcase⟩
    · exact ih st1 st' h2 k (by rw [heq]; exact hk)
    · rcases hcase with ⟨hrun, dn, hdn, heq⟩ | ⟨⟨e, hrun⟩, hdn2, heq⟩
      · apply ih st1 st' h2 k
        rw [heq]
        show dcontains (dinsert st.cursor (dedupKeyFor cm s) true) k = true
        rw [dcontains_dinsert, hk]
        rfl
      · apply ih st1 st' h2 k
        rw [heq]
        exact hk

theorem runCycle_cursor_new {api : ApiBehavior} {cm : String} {now : PyDateTime} :
    ∀ (swarms : List Swarm) (st st' : CycleState),
      runCycle api cm now st swarms = Except.ok st' →
      ∀ k, dcontains st'.cursor k = true →
        dcontains st.cursor k = true ∨
          ∃ s ∈ swarms, k = dedupKeyFor cm s ∧
            api.run_swarm (pyStrOpt s.id) = Except.ok () := by
  intro swarms
  induction swarms with
  | nil =>
    intro st st' h k hk
    rw [runCycle_nil h] at hk
    exact Or.inl hk
  | cons s rest ih =>
    intro st st' h k hk
    obtain ⟨st1, h1, h2⟩ := runCycle_cons h
    rcases ih st1 st' h2 k hk with h3 | ⟨t, hmem, hkey, hrun⟩
    · rcases evalSwarm_ok_cases h1 with heq | ⟨hdc, helig, hcase⟩
      · rw [heq] at h3
        exact Or.inl h3
      · rcases hcase with ⟨hrun, dn, hdn, heq⟩ | ⟨⟨e, hrun⟩, hdn2, heq⟩
        · rw [heq] at h3
          rw [show (⟨dinsert st.cursor (dedupKeyFor cm s) true, st.triggered ++ [dn],
            st.calls ++ [pyStrOpt s.id]⟩ : CycleState).cursor
            = dinsert st.cursor (dedupKeyFor cm s) true from rfl] at h3
          rw [dcontains_dinsert] at h3
          rcases Bool.or_eq_true_iff.mp h3 with h4 | h4
          · exact Or.inl h4
          · exact Or.inr ⟨s, List.mem_cons_self _ _,
              (beq_iff_eq.mp h4).symm, hrun⟩
        · rw [heq] at h3
          exact Or.inl h3
    · exact Or.inr ⟨t, List.mem_cons_of_mem _ hmem, hkey, hrun⟩

theorem runCycle_dget_true_mono {api : ApiBehavior} {cm : String} {now : PyDateTime} :
    ∀ (swarms : List Swarm) (st st' : CycleState),
      runCycle api cm now st swarms = Except.ok st' →
      ∀ k, dget st.cursor k = some true → dget st'.cursor k = some true := by
  intro swarms
  induction swarms with
  | nil =>
    intro st st' h k hk
    rw [runCycle_nil h]
    exact hk
  | cons s rest ih =>
    intro st st' h k hk
    obtain ⟨st1, h1, h2⟩ := runCycle_cons h
    apply ih st1 st' h2 k
    rcases evalSwarm_ok_cases h1 with heq | ⟨hdc, helig, hcase⟩
    · rw [heq]
      exact hk
    · rcases hcase with ⟨hrun, dn, hdn, heq⟩ | ⟨⟨e, hrun⟩, hdn2, heq⟩
      · rw [heq]
        show dget (dinsert st.cursor (dedupKeyFor cm s) true) k = some true
        by_cases hkk : k = dedupKeyFor cm s
        · rw [hkk]
          exact dget_dinsert_self _ _ _
        · rw [dget_dinsert_ne _ _ hkk]
          exact hk
      · rw [heq]
        exact hk

theorem runCycle_dget_new_true {api : ApiBehavior} {cm : String} {now : PyDateTime} :
    ∀ (swarms : List Swarm) (st st' : CycleState),
      runCycle api cm now st swarms = Except.ok st' →
      ∀ k, dcontains st.cursor k = false → dcontains st'.cursor k = true →
        dget st'.cursor k = some true := by
  intro swarms
  induction swarms with
  | nil =>
    intro st st' h k hk1 hk2
    rw [runCycle_nil h] at hk2
    rw [hk1] at hk2
    exact Bool.noConfusion hk2
  | cons s rest ih =>
    intro st st' h k hk1 hk2
    obtain ⟨st1, h1, h2⟩ := runCycle_cons h
    rcases evalSwarm_ok_cases h1 with heq | ⟨hdc, helig, hcase⟩
    · exact ih st1 st' h2 k (by rw [heq]; exact hk1) hk2
    · rcases hcase with ⟨hrun, dn, hdn, heq⟩ | ⟨⟨e, hrun⟩, hdn2, heq⟩
      · by_cases hkk : k = dedupKeyFor cm s
        · apply runCycle_dget_true_mono rest st1 st' h2 k
          rw [heq, hkk]
          exact dget_dinsert_self _ _ _
        · apply ih st1 st' h2 k _ hk2
          rw [heq]
          show dcontains (dinsert st.cursor (dedupKeyFor cm s) true) k = false
          rw [dcontains_dinsert, hk1]
          simp only [Bool.false_or]
          exact beq_eq_false_iff_ne.mpr (fun hc => hkk hc.symm)
      · exact ih st1 st' h2 k (by rw [heq]; exact hk1) hk2

theorem runCycle_triggered_mono {api : ApiBehavior} {cm : String} {now : PyDateTime} :
    ∀ (swarms : List Swarm) (st st' : CycleState),
      runCycle api cm now st swarms = Except.ok st' →
      ∃ suf, st'.triggered = st.triggered ++ suf := by
  intro swarms
  induction swarms with
  | nil =>
    intro st st' h
    rw [runCycle_nil h]
    exact ⟨[], by simp⟩
  | cons s rest ih =>
    intro st st' h
    obtain ⟨st1, h1, h2⟩ := runCycle_cons h
    obtain ⟨suf, hsuf⟩ := ih st1 st' h2
    rcases evalSwarm_ok_cases h1 with heq | ⟨hdc, helig, hcase⟩
    · rw [heq] at hsuf
      exact ⟨suf, hsuf⟩
    · rcases hcase with ⟨hrun, dn, hdn, heq⟩ | ⟨⟨e, hrun⟩, hdn2, heq⟩
      · rw [heq] at hsuf
        exact ⟨[dn] ++ suf, by rw [hsuf]; simp⟩
      · rw [heq] at hsuf
        exact ⟨suf, hsuf⟩

theorem runCycle_all_skipped {api : ApiBehavior} {cm : String} {now : PyDateTime} :
    ∀ (swarms : List Swarm) (st st' : CycleState),
      runCycle api cm now st swarms = Except.ok st' →
      (∀ s ∈ swarms, swarmEligible now s = true →
        dcontains st.cursor (dedupKeyFor cm s) = true ∨ displayNameOf s = none) →
      st' = st := by
  intro swarms
  induction swarms with
  | nil =>
    intro st st' h _
    exact runCycle_nil h
  | cons s rest ih =>
    intro st st' h hall
    obtain ⟨st1, h1, h2⟩ := runCycle_cons h
    have hst1 : st1 = st := by
      rcases evalSwarm_ok_cases h1 with heq | ⟨hdc, helig, hcase⟩
      · exact heq
      · rcases hall s (List.mem_cons_self _ _) helig with hcon | hdnn
        · rw [hcon] at hdc
          exact Bool.noConfusion hdc
        · rcases hcase with ⟨hrun, dn, hdn, heq⟩ | ⟨⟨e, hrun⟩, ⟨dn, hdn⟩, heq⟩
          · rw [hdnn] at hdn
            exact Option.noConfusion hdn
          · rw [hdnn] at hdn
            exact Option.noConfusion hdn
    rw [← hst1]
    apply ih st1 st' h2
    intro t hmem helig
    rw [hst1]
    exact hall t (List.mem_cons_of_mem _ hmem) helig

theorem runCycle_marks {api : ApiBehavior} {cm : String} {now : PyDateTime} :
    ∀ (swarms : List Swarm) (st st' : CycleState),
      runCycle api cm now st swarms = Except.ok st' →
      ∀ s ∈ swarms, swarmEligible now s = true →
        (∃ dn, displayNameOf s = some dn) →
        api.run_swarm (pyStrOpt s.id) = Except.ok () →
        dcontains st'.cursor (dedupKeyFor cm s) = true := by
  intro swarms
  induction swarms with
  | nil =>
    intro st st' h s hmem
    exact absurd hmem (List.not_mem_nil s)
  | cons t rest ih =>
    intro st st' h s hmem helig hdn hrun
    obtain ⟨st1, h1, h2⟩ := runCycle_cons h
    rcases List.mem_cons.mp hmem with heqs | hmem2
    · subst heqs
      by_cases hdc : dcontains st.cursor (dedupKeyFor cm s) = true
      · have hst1 : dcontains st1.cursor (dedupKeyFor cm s) = true := by
          have := @evalSwarm_of_contained api cm _ _ _ helig hdc
          rw [this] at h1
          rw [← Except.ok.inj h1]
          exact hdc
        exact runCycle_cursor_mono rest st1 st' h2 _ hst1
      · obtain ⟨dn, hdns⟩ := hdn
        have := @evalSwarm_of_triggers api cm _ _ _ _ helig
          (Bool.eq_false_iff.mpr hdc) hdns hrun
        rw [this] at h1
        have hst1 : dcontains st1.cursor (dedupKeyFor cm s) = true := by
          rw [← Except.ok.inj h1]
          show dcontains (dinsert st.cursor (dedupKeyFor cm s) true) _ = true
          rw [dcontains_dinsert]
          simp
        exact runCycle_cursor_mono rest st1 st' h2 _ hst1
    · exact ih st1 st' h2 s hmem2 helig hdn hrun

theorem count_append_single (l : List String) (x a : String) :
    (l ++ [x]).count a = l.count a + (if x = a then 1 else 0) := by
  rw [List.count_append, List.count_singleton']

theorem runCycle_count_of_contained {api : ApiBehavior} {cm : String}
    {now : PyDateTime} :
    ∀ (swarms : List Swarm) (st st' : CycleState) (sid : String),
      runCycle api cm now st swarms = Except.ok st' →
      dcontains st.cursor (cm ++ ":" ++ sid) = true →
      st'.calls.count sid = st.calls.count sid := by
  intro swarms
  induction swarms with
  | nil =>
    intro st st' sid h _
    rw [runCycle_nil h]
  | cons t rest ih =>
    intro st st' sid h hcon
    obtain ⟨st1, h1, h2⟩ := runCycle_cons h
    rcases evalSwarm_ok_cases h1 with heq | ⟨hdc, helig, hcase⟩
    · rw [ih st1 st' sid h2 (by rw [heq]; exact hcon), heq]
    · by_cases hsid : pyStrOpt t.id = sid
      · have hkt : dedupKeyFor cm t = cm ++ ":" ++ sid := by
          unfold dedupKeyFor
          rw [hsid]
        rw [hkt, hcon] at hdc
        exact Bool.noConfusion hdc
      · rcases hcase with ⟨hrun, dn, hdn, heq⟩ | ⟨⟨e, hrun⟩, hdn2, heq⟩
        · have hc1 : dcontains st1.cursor (cm ++ ":" ++ sid) = true := by
            rw [heq]
            show dcontains (dinsert st.cursor (dedupKeyFor cm t) true) _ = true
            rw [dcontains_dinsert, hcon]
            rfl
          rw [ih st1 st' sid h2 hc1, heq]
          show (st.calls ++ [pyStrOpt t.id]).count sid = st.calls.count sid
          rw [count_append_single, if_neg hsid]
          rfl
        · have hc1 : dcontains st1.cursor (cm ++ ":" ++ sid) = true := by
            rw [heq]
            exact hcon
          rw [ih st1 st' sid h2 hc1, heq]
          show (st.calls ++ [pyStrOpt t.id]).count sid = st.calls.count sid
          rw [count_append_single, if_neg hsid]
          rfl

theorem runCycle_count_fresh {api : ApiBehavior} {cm : String} {now : PyDateTime} :
    ∀ (swarms : List Swarm) (st st' : CycleState) (sid : String),
      runCycle api cm now st swarms = Except.ok st' →
      (∀ x, api.run_swarm x = Except.ok ()) →
      dcontains st.cursor (cm ++ ":" ++ sid) = false →
      (∃ s ∈ swarms, pyStrOpt s.id = sid ∧ swarmEligible now s = true ∧
        ∃ dn, displayNameOf s = some dn) →
      st'.calls.count sid = st.calls.count sid + 1 := by
  intro swarms
  induction swarms with
  | nil =>
    intro st st' sid h hall hfresh hex
    obtain ⟨s0, hmem0, _⟩ := hex
    exact absurd hmem0 (List.not_mem_nil s0)
  | cons t rest ih =>
    intro st st' sid h hall hfresh hex
    obtain ⟨st1, h1, h2⟩ := runCycle_cons h
    obtain ⟨s0, hmem0, hsid0, helig0, hdn0⟩ := hex
    by_cases hsid : pyStrOpt t.id = sid
    · have hkt : dedupKeyFor cm t = cm ++ ":" ++ sid := by
        unfold dedupKeyFor
        rw [hsid]
      by_cases heligt : swarmEligible now t = true
      · match hdnt : displayNameOf t with
        | some dn =>
          have he := @evalSwarm_of_triggers api cm _ _ _ _ heligt
            (by rw [hkt]; exact hfresh) hdnt (hall _)
          rw [he] at h1
          have hst1 := (Except.ok.inj h1)
          have hcount1 : st1.calls.count sid = st.calls.count sid + 1 := by
            rw [← hst1]
            show (st.calls ++ [pyStrOpt t.id]).count sid = st.calls.count sid + 1
            rw [count_append_single, if_pos hsid]
          have hcon1 : dcontains st1.cursor (cm ++ ":" ++ sid) = true := by
            rw [← hst1]
            show dcontains (dinsert st.cursor (dedupKeyFor cm t) true) _ = true
            rw [dcontains_dinsert, hkt]
            simp
          rw [runCycle_count_of_contained rest st1 st' sid h2 hcon1, hcount1]
        | none =>
          have he := @evalSwarm_of_freak api cm _ _ _ heligt
            (by rw [hkt]; exact hfresh) hdnt
          rw [he] at h1
          have hst1 := (Except.ok.inj h1)
          have hw : s0 ∈ rest := by
            rcases List.mem_cons.mp hmem0 with h0 | h0
            · obtain ⟨dn0, hdn0e⟩ := hdn0
              rw [h0, hdnt] at hdn0e
              exact Option.noConfusion hdn0e
            · exact h0
          rw [← hst1] at h2
          exact ih st st' sid h2 hall hfresh ⟨s0, hw, hsid0, helig0, hdn0⟩
      · rcases evalSwarm_ok_cases h1 with heq | ⟨_, helig2, _⟩
        · have hw : s0 ∈ rest := by
            rcases List.mem_cons.mp hmem0 with h0 | h0
            · rw [h0] at helig0
              exact absurd helig0 heligt
            · exact h0
          rw [heq] at h2
          exact ih st st' sid h2 hall hfresh ⟨s0, hw, hsid0, helig0, hdn0⟩
        · exact absurd helig2 heligt
    · have hw : s0 ∈ rest := by
        rcases List.mem_cons.mp hmem0 with h0 | h0
        · rw [h0] at hsid0
          exact absurd hsid0 hsid
        · exact h0
      rcases evalSwarm_ok_cases h1 with heq | ⟨hdc, helig, hcase⟩
      · rw [heq] at h2
        exact ih st st' sid h2 hall hfresh ⟨s0, hw, hsid0, helig0, hdn0⟩
      · have hkne : (dedupKeyFor cm t == cm ++ ":" ++ sid) = false := by
          apply beq_eq_false_iff_ne.mpr
          intro hc
          apply hsid
          exact str_append_left_cancel hc
        rcases hcase with ⟨hrun, dn, hdn, heq⟩ | ⟨⟨e, hrun⟩, hdn2, heq⟩
        · have hfresh1 : dcontains st1.cursor (cm ++ ":" ++ sid) = false := by
            rw [heq]
            show dcontains (dinsert st.cursor (dedupKeyFor cm t) true) _ = false
            rw [dcontains_dinsert, hfresh, hkne]
            rfl
          have hih := ih st1 st' sid h2 hall hfresh1 ⟨s0, hw, hsid0, helig0, hdn0⟩
          rw [hih, heq]
          show (st.calls ++ [pyStrOpt t.id]).count sid + 1 = st.calls.count sid + 1
          rw [count_append_single, if_neg hsid]
        · rw [hall (pyStrOpt t.id)] at hrun
          exact Except.noConfusion hrun

theorem runCycle_triggers_name {api : ApiBehavior} {cm : String} {now : PyDateTime} :
    ∀ (swarms : List Swarm) (st st' : CycleState) (B : Swarm) (dnB : String),
      runCycle api cm now st swarms = Except.ok st' →
      B ∈ swarms →
      (∀ t ∈ swarms, dedupKeyFor cm t = dedupKeyFor cm B → t = B) →
      swarmEligible now B = true →
      displayNameOf B = some dnB →
      api.run_swarm (pyStrOpt B.id) = Except.ok () →
      dcontains st.cursor (dedupKeyFor cm B) = false →
      dnB ∈ st'.triggered := by
  intro swarms
  induction swarms with
  | nil =>
    intro st st' B dnB h hmem
    exact absurd hmem (List.not_mem_nil B)
  | cons t rest ih =>
    intro st st' B dnB h hmem huniq helig hdn hrun hfresh
    obtain ⟨st1, h1, h2⟩ := runCycle_cons h
    by_cases hkey : dedupKeyFor cm t = dedupKeyFor cm B
    · have htB : t = B := huniq t (List.mem_cons_self _ _) hkey
      subst htB
      have he := @evalSwarm_of_triggers api cm _ _ _ _ helig hfresh hdn hrun
      rw [he] at h1
      have hst1 := Except.ok.inj h1
      obtain ⟨suf, hsuf⟩ := runCycle_triggered_mono rest st1 st' h2
      rw [hsuf, ← hst1]
      show dnB ∈ (st.triggered ++ [dnB]) ++ suf
      simp
    · have hmem2 : B ∈ rest := by
        rcases List.mem_cons.mp hmem with h0 | h0
        · rw [h0] at hkey
          exact absurd rfl hkey
        · exact h0
      have huniq2 : ∀ u ∈ rest, dedupKeyFor cm u = dedupKeyFor cm B → u = B :=
        fun u hu => huniq u (List.mem_cons_of_mem _ hu)
      rcases evalSwarm_ok_cases h1 with heq | ⟨hdc, heligt, hcase⟩
      · exact ih st1 st' B dnB h2 hmem2 huniq2 helig hdn hrun (by rw [heq]; exact hfresh)
      · have hkne : (dedupKeyFor cm t == dedupKeyFor cm B) = false :=
          beq_eq_false_iff_ne.mpr hkey
        rcases hcase with ⟨hrunt, dn, hdnt, heq⟩ | ⟨⟨e, hrunt⟩, hdn2, heq⟩
        · apply ih st1 st' B dnB h2 hmem2 huniq2 helig hdn hrun
          rw [heq]
          show dcontains (dinsert st.cursor (dedupKeyFor cm t) true) _ = false
          rw [dcontains_dinsert, hfresh, hkne]
          rfl
        · exact ih st1 st' B dnB h2 hmem2 huniq2 helig hdn hrun
            (by rw [heq]; exact hfresh)

theorem runCycle_isOk {api : ApiBehavior} {cm : String} {now : PyDateTime} :
    ∀ (swarms : List Swarm) (st : CycleState),
      (∀ s ∈ swarms, evalSwarmTotal now s = true) →
      ∃ st', runCycle api cm now st swarms = Except.ok st' := by
  intro swarms
  induction swarms with
  | nil =>
    intro st _
    exact ⟨st, rfl⟩
  | cons s rest ih =>
    intro st hall
    obtain ⟨st1, h1⟩ := @evalSwarm_isOk api cm _ st _
      (hall s (List.mem_cons_self _ _))
    obtain ⟨st', h2⟩ := ih st1 (fun t ht => hall t (List.mem_cons_of_mem _ ht))
    refine ⟨st', ?_⟩
    unfold runCycle
    rw [List.foldlM_cons, h1]
    exact h2

/-! ### Sensor-level helper lemmas -/

theorem runCycle_NoDupKeys {api : ApiBehavior} {cm : String} {now : PyDateTime} :
    ∀ (swarms : List Swarm) (st st' : CycleState),
      runCycle api cm now st swarms = Except.ok st' →
      NoDupKeys st.cursor → NoDupKeys st'.cursor := by
  intro swarms
  induction swarms with
  | nil =>
    intro st st' h hnd
    rw [runCycle_nil h]
    exact hnd
  | cons s rest ih =>
    intro st st' h hnd
    obtain ⟨st1, h1, h2⟩ := runCycle_cons h
    apply ih st1 st' h2
    rcases evalSwarm_ok_cases h1 with heq | ⟨hdc, helig, hcase⟩
    · rw [heq]
      exact hnd
    · rcases hcase with ⟨hrun, dn, hdn, heq⟩ | ⟨⟨e, hrun⟩, hdn2, heq⟩
      · rw [heq]
        exact NoDupKeys_dinsert hnd
      · rw [heq]
        exact hnd

theorem isPrefixB_append (l r : List Char) : isPrefixB l (l ++ r) = true := by
  induction l with
  | nil => rfl
  | cons c cs ih =>
    show (c == c && isPrefixB cs (cs ++ r)) = true
    rw [ih]
    simp

theorem str_append_assoc (a b c : String) : (a ++ b) ++ c = a ++ (b ++ c) := by
  cases a
  cases b
  cases c
  exact congrArg String.mk (List.append_assoc _ _ _)

theorem pyStartsWith_append (p s : String) : pyStartsWith (p ++ s) p = true := by
  unfold pyStartsWith
  show isPrefixB p.data (p.data ++ s.data) = true
  exact isPrefixB_append p.data s.data

theorem dedupKey_startsWith (now : PyDateTime) (x : String) :
    pyStartsWith (fmtMinute now ++ ":" ++ x) (fmtHour now) = true := by
  have h1 : fmtMinute now ++ ":" ++ x
      = fmtHour now ++ ("-" ++ (pad2 now.minute ++ (":" ++ x))) := by
    show (fmtHour now ++ "-" ++ pad2 now.minute) ++ ":" ++ x = _
    rw [str_append_assoc, str_append_assoc, str_append_assoc]
  rw [h1]
  exact pyStartsWith_append _ _

theorem pruneLedger_keeps {now : PyDateTime} {d : Dict} {k : String}
    (h : dcontains d k = true) (hp : pyStartsWith k (fmtHour now) = true) :
    dcontains (pruneLedger now d) k = true := by
  rw [dcontains_iff] at h ⊢
  obtain ⟨v, hv⟩ := h
  exact ⟨v, mem_pruneLedger_iff.mpr ⟨hv, Or.inl hp⟩⟩

theorem displayNameOf_isSome {s : Swarm} (h : s.id.isSome = true) :
    ∃ dn, displayNameOf s = some dn := by
  unfold displayNameOf
  match hi : s.id with
  | none =>
    rw [hi] at h
    exact Bool.noConfusion h
  | some i =>
    match hd : s.display_name with
    | none => exact ⟨strTake i 8, rfl⟩
    | some d =>
      by_cases hde : d = ""
      · refine ⟨strTake i 8, ?_⟩
        show (if d = "" then Option.map (fun j => strTake j 8) (some i) else some d)
          = some (strTake i 8)
        rw [if_pos hde]
        rfl
      · refine ⟨d, ?_⟩
        show (if d = "" then Option.map (fun j => strTake j 8) (some i) else some d)
          = some d
        rw [if_neg hde]

theorem json_dumps_ne_empty (d : Dict) : json_dumps d ≠ "" := by
  intro h
  have h2 := congrArg String.data h
  exact List.noConfusion h2

theorem sensor_inv {api : ApiBehavior} {cIn : Option String} {now : PyDateTime}
    {res : SensorResult}
    (h : swarm_schedule_sensor api cIn now = Except.ok res) :
    ∃ d0, json_loads (pyOrDefault cIn) = Except.ok d0 ∧
      sensor_after_load api cIn now d0 = Except.ok res := by
  unfold swarm_schedule_sensor at h
  match hl : json_loads (pyOrDefault cIn) with
  | Except.error e =>
    rw [hl] at h
    exact Except.noConfusion h
  | Except.ok d0 =>
    simp only [hl] at h
    exact ⟨d0, rfl, h⟩

theorem sensor_after_load_fetch_ok {api : ApiBehavior} {cIn : Option String}
    {now : PyDateTime} {d0 : Dict} {swarms : List Swarm} {fin : CycleState}
    (hfetch : api.get_swarms = Except.ok swarms)
    (hrun : runCycle api (fmtMinute now) now ⟨pruneLedger now d0, [], []⟩ swarms
      = Except.ok fin) :
    sensor_after_load api cIn now d0 = Except.ok
      ⟨some (json_dumps fin.cursor),
        if fin.triggered = [] then Outcome.skipped "No swarms matched current time"
        else Outcome.triggered fin.triggered, fin.calls⟩ := by
  unfold sensor_after_load
  simp only [hfetch, hrun]
  by_cases ht : fin.triggered = []
  · rw [if_pos ht, if_pos ht]
  · rw [if_neg ht, if_neg ht]

theorem sensor_after_load_fetch_ok_inv {api : ApiBehavior} {cIn : Option String}
    {now : PyDateTime} {d0 : Dict} {res : SensorResult} {swarms : List Swarm}
    (hfetch : api.get_swarms = Except.ok swarms)
    (h : sensor_after_load api cIn now d0 = Except.ok res) :
    ∃ fin, runCycle api (fmtMinute now) now ⟨pruneLedger now d0, [], []⟩ swarms
        = Except.ok fin ∧
      res.cursorOut = some (json_dumps fin.cursor) ∧
      res.outcome = (if fin.triggered = [] then
        Outcome.skipped "No swarms matched current time"
        else Outcome.triggered fin.triggered) ∧
      res.calls = fin.calls := by
  unfold sensor_after_load at h
  simp only [hfetch] at h
  match hr : runCycle api (fmtMinute now) now ⟨pruneLedger now d0, [], []⟩ swarms with
  | Except.error e =>
    rw [hr] at h
    exact Except.noConfusion h
  | Except.ok fin =>
    simp only [hr] at h
    by_cases ht : fin.triggered = []
    · rw [if_pos ht] at h
      refine ⟨fin, rfl, ?_, ?_, ?_⟩ <;> (rw [← Except.ok.inj h]; try simp [ht])
    · rw [if_neg ht] at h
      refine ⟨fin, rfl, ?_, ?_, ?_⟩ <;> (rw [← Except.ok.inj h]; try simp [ht])

theorem sensor_of_parts {api : ApiBehavior} {cIn : Option String} {now : PyDateTime}
    {d0 : Dict} {swarms : List Swarm} {fin : CycleState}
    (hload : json_loads (pyOrDefault cIn) = Except.ok d0)
    (hfetch : api.get_swarms = Except.ok swarms)
    (hrun : runCycle api (fmtMinute now) now ⟨pruneLedger now d0, [], []⟩ swarms
      = Except.ok fin) :
    swarm_schedule_sensor api cIn now = Except.ok
      ⟨some (json_dumps fin.cursor),
        if fin.triggered = [] then Outcome.skipped "No swarms matched current time"
        else Outcome.triggered fin.triggered, fin.calls⟩ := by
  unfold swarm_schedule_sensor
  simp only [hload]
  exact sensor_after_load_fetch_ok hfetch hrun

/-- C10: when the fetch succeeds, the persisted cursor decodes to a
ledger whose key set contains every key of the pruned incoming ledger,
and every newly added key is the dedup key `{currentSlot}:{swarmId}` of
some fetched swarm, stored with value `true`. -/
theorem ledger_monotonicity :
    ∀ (api : ApiBehavior) (cIn : Option String) (now : PyDateTime)
      (swarms : List Swarm) (d0 : Dict) (res : SensorResult) (txt : String),
      api.get_swarms = Except.ok swarms →
      json_loads (pyOrDefault cIn) = Except.ok d0 →
      swarm_schedule_sensor api cIn now = Except.ok res →
      res.cursorOut = some txt →
      ∃ dOut, json_loads txt = Except.ok dOut ∧
        (∀ k, dcontains (pruneLedger now d0) k = true → dcontains dOut k = true) ∧
        (∀ k, dcontains dOut k = true → dcontains (pruneLedger now d0) k = false →
          (∃ s ∈ swarms, k = fmtMinute now ++ ":" ++ pyStrOpt s.id) ∧
            dget dOut k = some true) := by
  intro api cIn now swarms d0 res txt hfetch hload hsens hcur
  obtain ⟨d0', hload', hafter⟩ := sensor_inv hsens
  have hd0 : d0' = d0 := Except.ok.inj (hload'.symm.trans hload)
  subst hd0
  obtain ⟨fin, hrun, hcout, houtc, hcalls⟩ := sensor_after_load_fetch_ok_inv hfetch hafter
  have htxt : txt = json_dumps fin.cursor := by
    rw [hcur] at hcout
    exact Option.some.inj hcout
  subst htxt
  have hnd : NoDupKeys fin.cursor :=
    runCycle_NoDupKeys swarms _ fin hrun
      (NoDupKeys_filter _ (json_loads_NoDupKeys hload))
  refine ⟨fin.cursor, json_loads_dumps hnd, ?_, ?_⟩
  · intro k hk
    exact runCycle_cursor_mono swarms _ fin hrun k hk
  · intro k hk1 hk2
    refine ⟨?_, runCycle_dget_new_true swarms _ fin hrun k hk2 hk1⟩
    rcases runCycle_cursor_new swarms _ fin hrun k hk1 with hcon | ⟨s, hmem, hkey, _⟩
    · rw [hk2] at hcon
      exact Bool.noConfusion hcon
    · exact ⟨s, hmem, hkey⟩

/-- C4: if swarm A's trigger call fails and swarm B's succeeds in the
same cycle, the cycle completes with B's display name in the Triggered
outcome and B's dedup key set in the outgoing ledger, while A's dedup
key is absent. -/
theorem trigger_isolation :
    ∀ (api : ApiBehavior) (cIn : Option String) (now : PyDateTime)
      (swarms : List Swarm) (d0 : Dict) (A B : Swarm) (dnB eA : String),
      api.get_swarms = Except.ok swarms →
      json_loads (pyOrDefault cIn) = Except.ok d0 →
      (∀ t ∈ swarms, evalSwarmTotal now t = true) →
      A ∈ swarms → B ∈ swarms →
      swarmEligible now A = true → swarmEligible now B = true →
      api.run_swarm (pyStrOpt A.id) = Except.error eA →
      api.run_swarm (pyStrOpt B.id) = Except.ok () →
      displayNameOf B = some dnB →
      (∀ t ∈ swarms, dedupKeyFor (fmtMinute now) t = dedupKeyFor (fmtMinute now) B →
        t = B) →
      dcontains (pruneLedger now d0) (dedupKeyFor (fmtMinute now) A) = false →
      dcontains (pruneLedger now d0) (dedupKeyFor (fmtMinute now) B) = false →
      ∃ (res : SensorResult) (dOut : Dict) (names : List String),
        swarm_schedule_sensor api cIn now = Except.ok res ∧
        res.outcome = Outcome.triggered names ∧
        dnB ∈ names ∧
        res.cursorOut = some (json_dumps dOut) ∧
        json_loads (json_dumps dOut) = Except.ok dOut ∧
        dcontains dOut (dedupKeyFor (fmtMinute now) B) = true ∧
        dcontains dOut (dedupKeyFor (fmtMinute now) A) = false := by
  intro api cIn now swarms d0 A B dnB eA hfetch hload htotal hmemA hmemB heligA
    heligB hrunA hrunB hdnB huniqB hfreshA hfreshB
  obtain ⟨fin, hrun⟩ := runCycle_isOk swarms ⟨pruneLedger now d0, [], []⟩ htotal
  have hnd : NoDupKeys fin.cursor :=
    runCycle_NoDupKeys swarms _ fin hrun
      (NoDupKeys_filter _ (json_loads_NoDupKeys hload))
  have hsens := sensor_of_parts hload hfetch hrun
  have hBtrig : dnB ∈ fin.triggered :=
    runCycle_triggers_name swarms _ fin B dnB hrun hmemB huniqB heligB hdnB
      hrunB hfreshB
  have htne : fin.triggered ≠ [] := List.ne_nil_of_mem hBtrig
  have hBkey : dcontains fin.cursor (dedupKeyFor (fmtMinute now) B) = true :=
    runCycle_marks swarms _ fin hrun B hmemB heligB ⟨dnB, hdnB⟩ hrunB
  have hAkey : dcontains fin.cursor (dedupKeyFor (fmtMinute now) A) = false := by
    rw [Bool.eq_false_iff]
    intro hcon
    rcases runCycle_cursor_new swarms _ fin hrun _ hcon with hin | ⟨t, hmemt, hkeyt, hrunt⟩
    · rw [hfreshA] at hin
      exact Bool.noConfusion hin
    · have hpyid : pyStrOpt A.id = pyStrOpt t.id := str_append_left_cancel hkeyt
      rw [← hpyid] at hrunt
      rw [hrunA] at hrunt
      exact Except.noConfusion hrunt
  refine ⟨_, fin.cursor, fin.triggered, hsens, ?_, hBtrig, rfl,
    json_loads_dumps hnd, hBkey, hAkey⟩
  show (if fin.triggered = [] then Outcome.skipped "No swarms matched current time"
    else Outcome.triggered fin.triggered) = Outcome.triggered fin.triggered
  rw [if_neg htne]

/-- C1: with the same swarm list and instant, and all trigger calls
succeeding, running the evaluation cycle a second time on the cursor
produced by the first issues no trigger calls at all and reports the
no-match skip, and each eligible swarm's trigger call is issued exactly
once across the two runs. -/
theorem dedup_idempotent :
    ∀ (api : ApiBehavior) (cIn : Option String) (now : PyDateTime)
      (swarms : List Swarm) (d0 : Dict) (res1 res2 : SensorResult),
      api.get_swarms = Except.ok swarms →
      (∀ x, api.run_swarm x = Except.ok ()) →
      json_loads (pyOrDefault cIn) = Except.ok d0 →
      swarm_schedule_sensor api cIn now = Except.ok res1 →
      swarm_schedule_sensor api res1.cursorOut now = Except.ok res2 →
      res2.calls = [] ∧
      res2.outcome = Outcome.skipped "No swarms matched current time" ∧
      (∀ s ∈ swarms, swarmEligible now s = true → s.id.isSome = true →
        dcontains (pruneLedger now d0) (dedupKeyFor (fmtMinute now) s) = false →
        (res1.calls ++ res2.calls).count (pyStrOpt s.id) = 1) := by
  intro api cIn now swarms d0 res1 res2 hfetch hall hload h1 h2
  obtain ⟨d0', hload', hafter1⟩ := sensor_inv h1
  have hd0 : d0' = d0 := Except.ok.inj (hload'.symm.trans hload)
  subst hd0
  obtain ⟨fin1, hrun1, hcout1, houtc1, hcalls1⟩ :=
    sensor_after_load_fetch_ok_inv hfetch hafter1
  have hnd1 : NoDupKeys fin1.cursor :=
    runCycle_NoDupKeys swarms _ fin1 hrun1
      (NoDupKeys_filter _ (json_loads_NoDupKeys hload))
  obtain ⟨d1, hload1, hafter2⟩ := sensor_inv h2
  have hpy : pyOrDefault res1.cursorOut = json_dumps fin1.cursor := by
    rw [hcout1]
    show (if json_dumps fin1.cursor = "" then "\x7b\x7d" else json_dumps fin1.cursor)
      = json_dumps fin1.cursor
    rw [if_neg (json_dumps_ne_empty _)]
  have hd1 : d1 = fin1.cursor := by
    rw [hpy] at hload1
    exact Except.ok.inj (hload1.symm.trans (json_loads_dumps hnd1))
  subst hd1
  obtain ⟨fin2, hrun2, hcout2, houtc2, hcalls2⟩ :=
    sensor_after_load_fetch_ok_inv hfetch hafter2
  have hskip : ∀ t ∈ swarms, swarmEligible now t = true →
      dcontains (pruneLedger now fin1.cursor) (dedupKeyFor (fmtMinute now) t) = true ∨
        displayNameOf t = none := by
    intro t hmem helig
    match hdn : displayNameOf t with
    | none => exact Or.inr rfl
    | some dn =>
      left
      apply pruneLedger_keeps
      · exact runCycle_marks swarms _ fin1 hrun1 t hmem helig ⟨dn, hdn⟩ (hall _)
      · exact dedupKey_startsWith now (pyStrOpt t.id)
  have hfin2 : fin2 = ⟨pruneLedger now fin1.cursor, [], []⟩ :=
    runCycle_all_skipped swarms _ fin2 hrun2 hskip
  have hcalls2nil : res2.calls = [] := by
    rw [hcalls2, hfin2]
  have houtc2skip : res2.outcome = Outcome.skipped "No swarms matched current time" := by
    rw [houtc2, hfin2]
    simp
  refine ⟨hcalls2nil, houtc2skip, ?_⟩
  intro s hmem helig hid hfresh
  have hcount1 : fin1.calls.count (pyStrOpt s.id) = 1 := by
    have h0 := runCycle_count_fresh swarms _ fin1
      (pyStrOpt s.id) hrun1 hall hfresh
      ⟨s, hmem, rfl, helig, displayNameOf_isSome hid⟩
    rw [h0]
    rfl
  rw [hcalls1, hcalls2nil, List.append_nil, hcount1]

/-- C10 witness: the monotonicity theorem applied to a one-swarm run
from an empty cursor — the newly persisted ledger holds the dedup key
of the triggered swarm with value true. -/
theorem ledger_monotonicity_witness :
    dcontains [("2024-01-15-09-00:wit-id", true)] "2024-01-15-09-00:wit-id" = true ∧
    dget [("2024-01-15-09-00:wit-id", true)] "2024-01-15-09-00:wit-id" = some true := by
  obtain ⟨dOut, hld, hsup, hnew⟩ := ledger_monotonicity
    ⟨Except.ok [⟨some "wit-id", some "Wit", none, some "custom", some "* * * * *"⟩],
      fun _ => Except.ok ()⟩
    none ⟨2024, 1, 15, 9, 0⟩
    [⟨some "wit-id", some "Wit", none, some "custom", some "* * * * *"⟩] []
    ⟨some "\x7b\"2024-01-15-09-00:wit-id\": true\x7d", Outcome.triggered ["Wit"],
      ["wit-id"]⟩
    "\x7b\"2024-01-15-09-00:wit-id\": true\x7d"
    rfl (by rfl) (by rfl) rfl
  have hTXT : json_loads "\x7b\"2024-01-15-09-00:wit-id\": true\x7d"
      = Except.ok [("2024-01-15-09-00:wit-id", true)] := by rfl
  have hdo : dOut = [("2024-01-15-09-00:wit-id", true)] :=
    Except.ok.inj (hld.symm.trans hTXT)
  subst hdo
  exact ⟨by rfl, (hnew "2024-01-15-09-00:wit-id" (by rfl) (by rfl)).2⟩

/-- C1 witness: the idempotence theorem on a one-swarm list with an
always-matching cron, run twice from an empty cursor: the second run
issues no calls and skips, and the swarm is called exactly once. -/
theorem dedup_idempotent_witness :
    ([] : List String) = [] ∧
    Outcome.skipped "No swarms matched current time"
      = Outcome.skipped "No swarms matched current time" ∧
    (["wit-id"] ++ ([] : List String)).count "wit-id" = 1 := by
  have h := dedup_idempotent
    ⟨Except.ok [⟨some "wit-id", some "Wit", none, some "custom", some "* * * * *"⟩],
      fun _ => Except.ok ()⟩
    none ⟨2024, 1, 15, 9, 0⟩
    [⟨some "wit-id", some "Wit", none, some "custom", some "* * * * *"⟩] []
    ⟨some "\x7b\"2024-01-15-09-00:wit-id\": true\x7d", Outcome.triggered ["Wit"],
      ["wit-id"]⟩
    ⟨some "\x7b\"2024-01-15-09-00:wit-id\": true\x7d",
      Outcome.skipped "No swarms matched current time", []⟩
    rfl (fun x => rfl) (by rfl) (by rfl) (by rfl)
  exact ⟨h.1, h.2.1,
    h.2.2 ⟨some "wit-id", some "Wit", none, some "custom", some "* * * * *"⟩
      (List.mem_cons_self _ _) (by rfl) (by rfl) (by rfl)⟩

/-- C4 witness: the isolation theorem on the two-swarm list [A, B]
where triggering A fails with a 500 and B succeeds: the cycle
completes, B appears in the Triggered outcome, B's key is in the
persisted ledger and A's key is not. -/
theorem trigger_isolation_witness :
    swarm_schedule_sensor
        ⟨Except.ok
          [⟨some "aid", some "Alpha", none, some "custom", some "* * * * *"⟩,
           ⟨some "bid", some "Beta", none, some "custom", some "* * * * *"⟩],
          fun sid => if sid = "aid" then Except.error "500" else Except.ok ()⟩
        none ⟨2024, 1, 15, 9, 0⟩
      = Except.ok ⟨some "\x7b\"2024-01-15-09-00:bid\": true\x7d",
          Outcome.triggered ["Beta"], ["aid", "bid"]⟩ ∧
    "Beta" ∈ ["Beta"] ∧
    dcontains [("2024-01-15-09-00:bid", true)] "2024-01-15-09-00:bid" = true ∧
    dcontains [("2024-01-15-09-00:bid", true)] "2024-01-15-09-00:aid" = false := by
  obtain ⟨res, dOut, names, hs, ho, hm, hc, hrt, hB, hA⟩ := trigger_isolation
    ⟨Except.ok
      [⟨some "aid", some "Alpha", none, some "custom", some "* * * * *"⟩,
       ⟨some "bid", some "Beta", none, some "custom", some "* * * * *"⟩],
      fun sid => if sid = "aid" then Except.error "500" else Except.ok ()⟩
    none ⟨2024, 1, 15, 9, 0⟩
    [⟨some "aid", some "Alpha", none, some "custom", some "* * * * *"⟩,
     ⟨some "bid", some "Beta", none, some "custom", some "* * * * *"⟩] []
    ⟨some "aid", some "Alpha", none, some "custom", some "* * * * *"⟩
    ⟨some "bid", some "Beta", none, some "custom", some "* * * * *"⟩
    "Beta" "500"
    rfl (by rfl) (by decide)
    (List.mem_cons_self _ _)
    (List.mem_cons_of_mem _ (List.mem_cons_self _ _))
    (by rfl) (by rfl) (by rfl) (by rfl) (by rfl) (by decide) (by rfl) (by rfl)
  have hres : res = ⟨some "\x7b\"2024-01-15-09-00:bid\": true\x7d",
      Outcome.triggered ["Beta"], ["aid", "bid"]⟩ :=
    Except.ok.inj (hs.symm.trans (by rfl))
  subst hres
  have hnames : ["Beta"] = names := Outcome.triggered.inj ho
  have hdump : "\x7b\"2024-01-15-09-00:bid\": true\x7d" = json_dumps dOut :=
    Option.some.inj hc
  rw [← hdump] at hrt
  have hTXT : json_loads "\x7b\"2024-01-15-09-00:bid\": true\x7d"
      = Except.ok [("2024-01-15-09-00:bid", true)] := by rfl
  have hdo : dOut = [("2024-01-15-09-00:bid", true)] :=
    Except.ok.inj (hrt.symm.trans hTXT)
  subst hdo
  refine ⟨hs, ?_, hB, hA⟩
  rw [hnames]
  exact hm
